import Mathlib

/-!
Shallow embedding of the LureMaster knowledge-store core
(`src/skills/knowledge_manager.py`, `src/skills/vector_store.py`,
`src/config/schemas.py`) and proofs about the claims of the spec.

Conventions of the embedding:
* Python dicts of JSON-like data are association lists `List (String × Val)`
  with unique keys, preserving insertion order.
* Python floats used for scores/confidence are modelled as rationals `ℚ`.
* Timestamps (`created_at`, `updated_at`, `verified_at`, `changed_at`) and the
  human-readable parts of returned messages are elided; operations return the
  mutated store and the success boolean of the source's `(bool, str)` pair.
* The `_meta` block of a stored item is held in a dedicated `Meta` structure
  rather than inline under the `"_meta"` key; every code path of the source
  that reads `_meta` through `.get` with a default therefore sees the field
  directly.  The data part of an item never contains a `"_meta"` key.
* The embedding models the well-formed data the pipeline produces: `name`
  values are read as strings with `""` for absent ones (Python
  `data.get("name", "")`); the `aliases` field, when present, is a list, and
  alias entries that are not strings are skipped where the source would
  raise `AttributeError` on `alias.lower()`.
-/

namespace LureMaster

/-- JSON-like values stored in knowledge items. -/
inductive Val where
  | vnull : Val
  | vbool : Bool → Val
  | vint : Int → Val
  | vstr : String → Val
  | vlist : List Val → Val

mutual

/-- Python `repr` of a value, used for elements inside a printed list. -/
def valRepr : Val → String
  | Val.vnull => "None"
  | Val.vbool b => if b then "True" else "False"
  | Val.vint n => toString n
  | Val.vstr s => "'" ++ s ++ "'"
  | Val.vlist xs => "[" ++ String.intercalate ", " (valReprList xs) ++ "]"

/-- `repr` of every element of a list of values. -/
def valReprList : List Val → List String
  | [] => []
  | x :: xs => valRepr x :: valReprList xs

end

/-- Python `str(x)`: identical to `repr` except on strings. -/
def valStr : Val → String
  | Val.vstr s => s
  | v => valRepr v

/-- Python truthiness of a value (`bool(x)`). -/
def valTruthy : Val → Bool
  | Val.vnull => false
  | Val.vbool b => b
  | Val.vint n => n != 0
  | Val.vstr s => !s.data.isEmpty
  | Val.vlist xs => !xs.isEmpty

/-- Python `str.lower()` (ASCII case mapping, which covers every cased
character appearing in this code base). -/
def strLower (s : String) : String := ⟨s.data.map Char.toLower⟩

/-- Python's substring test `needle in hay`. -/
def infixB (needle : List Char) : List Char → Bool
  | [] => needle.isEmpty
  | c :: rest => needle.isPrefixOf (c :: rest) || infixB needle rest

/-- Substring test on strings. -/
def substrB (needle hay : String) : Bool := infixB needle.data hay.data

mutual

/-- Decidable equality of values, by structural recursion. -/
def valBEq : Val → Val → Bool
  | Val.vnull, Val.vnull => true
  | Val.vbool a, Val.vbool b => a == b
  | Val.vint a, Val.vint b => a == b
  | Val.vstr a, Val.vstr b => a == b
  | Val.vlist a, Val.vlist b => valListBEq a b
  | _, _ => false

/-- Decidable equality of lists of values. -/
def valListBEq : List Val → List Val → Bool
  | [], [] => true
  | a :: as_, b :: bs => valBEq a b && valListBEq as_ bs
  | _, _ => false

end

mutual

theorem valBEq_refl : (a : Val) → valBEq a a = true
  | Val.vnull => rfl
  | Val.vbool b => by simp [valBEq]
  | Val.vint n => by simp [valBEq]
  | Val.vstr s => by simp [valBEq]
  | Val.vlist xs => by simpa [valBEq] using valListBEq_refl xs

theorem valListBEq_refl : (xs : List Val) → valListBEq xs xs = true
  | [] => rfl
  | x :: xs => by simp [valListBEq, valBEq_refl x, valListBEq_refl xs]

end

mutual

theorem valBEq_eq : (a b : Val) → valBEq a b = true → a = b
  | Val.vnull, Val.vnull, _ => rfl
  | Val.vbool _, Val.vbool _, h => by
      simp [valBEq] at h; simp [h]
  | Val.vint _, Val.vint _, h => by
      simp [valBEq] at h; simp [h]
  | Val.vstr _, Val.vstr _, h => by
      simp [valBEq] at h; simp [h]
  | Val.vlist xs, Val.vlist ys, h => by
      simp only [valBEq] at h
      simp [valListBEq_eq xs ys h]
  | Val.vnull, Val.vbool _, h => by simp [valBEq] at h
  | Val.vnull, Val.vint _, h => by simp [valBEq] at h
  | Val.vnull, Val.vstr _, h => by simp [valBEq] at h
  | Val.vnull, Val.vlist _, h => by simp [valBEq] at h
  | Val.vbool _, Val.vnull, h => by simp [valBEq] at h
  | Val.vbool _, Val.vint _, h => by simp [valBEq] at h
  | Val.vbool _, Val.vstr _, h => by simp [valBEq] at h
  | Val.vbool _, Val.vlist _, h => by simp [valBEq] at h
  | Val.vint _, Val.vnull, h => by simp [valBEq] at h
  | Val.vint _, Val.vbool _, h => by simp [valBEq] at h
  | Val.vint _, Val.vstr _, h => by simp [valBEq] at h
  | Val.vint _, Val.vlist _, h => by simp [valBEq] at h
  | Val.vstr _, Val.vnull, h => by simp [valBEq] at h
  | Val.vstr _, Val.vbool _, h => by simp [valBEq] at h
  | Val.vstr _, Val.vint _, h => by simp [valBEq] at h
  | Val.vstr _, Val.vlist _, h => by simp [valBEq] at h
  | Val.vlist _, Val.vnull, h => by simp [valBEq] at h
  | Val.vlist _, Val.vbool _, h => by simp [valBEq] at h
  | Val.vlist _, Val.vint _, h => by simp [valBEq] at h
  | Val.vlist _, Val.vstr _, h => by simp [valBEq] at h

theorem valListBEq_eq : (xs ys : List Val) → valListBEq xs ys = true → xs = ys
  | [], [], _ => rfl
  | x :: xs, y :: ys, h => by
      simp only [valListBEq, Bool.and_eq_true] at h
      rw [valBEq_eq x y h.1, valListBEq_eq xs ys h.2]
  | [], _ :: _, h => by simp [valListBEq] at h
  | _ :: _, [], h => by simp [valListBEq] at h

end

instance : DecidableEq Val := fun a b =>
  if h : valBEq a b = true then
    Decidable.isTrue (valBEq_eq a b h)
  else
    Decidable.isFalse (fun he => h (he ▸ valBEq_refl a))

/-- A Python dict holding item data: keys in insertion order, no duplicates. -/
abbrev Obj := List (String × Val)

/-- Association-list read, Python `d.get(k)` on a dict with unique keys. -/
def aget {α : Type} : List (String × α) → String → Option α
  | [], _ => none
  | (k', v) :: rest, k => if k' = k then some v else aget rest k

/-- Association-list write, Python `d[k] = v`: updates the binding in place
when the key exists, otherwise appends it (dict insertion order). -/
def aset {α : Type} : List (String × α) → String → α → List (String × α)
  | [], k, v => [(k, v)]
  | (k', v') :: rest, k, v =>
      if k' = k then (k', v) :: rest else (k', v') :: aset rest k v

/-- Python `k in d`. -/
def hasKey {α : Type} (m : List (String × α)) (k : String) : Bool :=
  (aget m k).isSome

/-- Python `d.get(k)` where an explicit JSON `null` and an absent key are
indistinguishable (both give `None`). -/
def pyGet (d : Obj) (k : String) : Option Val :=
  match aget d k with
  | some Val.vnull => none
  | some v => some v
  | none => none

/-- Python `d.get(k, dflt)` read as a string; non-string values fall back to
the default (the source would raise on them). -/
def getStrD (d : Obj) (k : String) (dflt : String) : String :=
  match aget d k with
  | some (Val.vstr s) => s
  | _ => dflt

/-- String elements of `d.get("aliases", [])`; a non-list value yields `[]`
(the source guards with `isinstance(aliases, list)` at the merge site). -/
def aliasStrs (d : Obj) : List String :=
  match aget d "aliases" with
  | some (Val.vlist xs) =>
      xs.filterMap (fun v => match v with
        | Val.vstr s => some s
        | _ => none)
  | _ => []

/-!
Python float arithmetic on confidences and scores is modelled with exact
rationals.  The library's `Rat.add`/`Rat.mul`/`Rat.div` are irreducible, so
the embedding uses the following definitionally-evaluating equivalents
(`q`, `qadd`, `qmul`, `qsub`, `qdiv`, `qmax`); the bridging theorems below
identify each with the corresponding field operation of `ℚ`, and the claim
theorems are stated with the ordinary operations.
-/

/-- The rational literal `n / d`. -/
def q (n : Int) (d : Nat) : ℚ := mkRat n d

/-- Addition on `ℚ`, by a reducible formula. -/
def qadd (a b : ℚ) : ℚ := mkRat (a.num * b.den + b.num * a.den) (a.den * b.den)

/-- Subtraction on `ℚ`, by a reducible formula. -/
def qsub (a b : ℚ) : ℚ := mkRat (a.num * b.den - b.num * a.den) (a.den * b.den)

/-- Multiplication on `ℚ`, by a reducible formula. -/
def qmul (a b : ℚ) : ℚ := mkRat (a.num * b.num) (a.den * b.den)

/-- Division on `ℚ`, by a reducible formula. -/
def qdiv (a b : ℚ) : ℚ := Rat.divInt (a.num * b.den) (a.den * b.num)

/-- Python `max(a, b)` on two rationals. -/
def qmax (a b : ℚ) : ℚ := if a ≤ b then b else a

/-- The `_meta` block of a knowledge item (`KnowledgeMeta` dataclass of the
source, timestamps and tags omitted).  Field defaults mirror the dataclass
defaults. -/
structure Meta where
  version : Nat := 1
  source : String := "manual"
  confidence : ℚ := 1
  verified : Bool := false
  verified_by : Option String := none
  feedback_count : Nat := 0
  positive_feedback : Nat := 0
  negative_feedback : Nat := 0
  status : String := "active"
  parent_version : Option Nat := none
deriving DecidableEq

/-- A stored knowledge item: its data dict (without the `"_meta"` key) plus
its metadata block. -/
structure Item where
  data : Obj
  meta : Meta
deriving DecidableEq

instance : Inhabited Item := ⟨⟨[], {}⟩⟩

/-- One entry of the version ledger (`KnowledgeVersion` of the source,
`changed_at`/`changed_by` omitted). -/
structure VRecord where
  version : Nat
  data : Obj
  meta : Meta
  changes : String
deriving DecidableEq

/-- The persisted state handled by `KnowledgeManager`: the knowledge
collection (category key → ordered item list) and the version ledger
(`"category:name"` → ordered record list). -/
structure Store where
  knowledge : List (String × List Item)
  versions : List (String × List VRecord)
deriving DecidableEq

/-- `KnowledgeManager.TYPE_MAPPING`. -/
def TYPE_MAPPING : List (String × String) :=
  [("fish", "fish_species"), ("lure", "lures"), ("rig", "rigs"),
   ("spot_type", "spot_types"), ("fish_species", "fish_species"),
   ("lures", "lures"), ("rigs", "rigs"), ("spot_types", "spot_types")]

/-- `KnowledgeManager.get_type_key`. -/
def get_type_key (data_type : String) : String :=
  (aget TYPE_MAPPING data_type).getD data_type

/-- `KnowledgeManager.DEFAULT_CONFIDENCE`. -/
def DEFAULT_CONFIDENCE : List (String × ℚ) :=
  [("expert", 1), ("manual", q 9 10), ("collected", q 7 10),
   ("llm_generated", q 6 10), ("user_feedback", q 8 10), ("imported", q 7 10)]

/-- Inner loop of `KnowledgeManager._find_existing`: first item whose name or
one of whose aliases equals (lowercased) the candidate's lowercased name,
together with its index. -/
def find_existing_from (name : String) (idx : Nat) :
    List Item → Option (Nat × Item)
  | [] => none
  | it :: rest =>
      if strLower (getStrD it.data "name" "") = name then some (idx, it)
      else if (aliasStrs it.data).any (fun a => strLower a = name) then
        some (idx, it)
      else find_existing_from name (idx + 1) rest

/-- `KnowledgeManager._find_existing`. -/
def find_existing (data : Obj) (items : List Item) : Option (Nat × Item) :=
  find_existing_from (strLower (getStrD data "name" "")) 0 items

/-- One field of `KnowledgeManager._merge_data`, from the old and new values
read with `.get` (so `null` and absent coincide). -/
def mergeField : Option Val → Option Val → Val
  | ov, none => ov.getD Val.vnull
  | none, some nv => nv
  | some ov, some nv =>
      match ov, nv with
      | Val.vlist xs, Val.vlist ys =>
          Val.vlist
            ((((xs.map valStr) ++ (ys.map valStr)).dedup).map Val.vstr)
      | Val.vstr s, Val.vstr t =>
          if s ≠ t ∧ s.length < t.length then Val.vstr t else Val.vstr s
      | _, nv => nv

/-- `KnowledgeManager._merge_data`: every key of either dict except
`"_meta"`, each merged field-by-field.  The source iterates the keys in
Python-set order and builds the union of two stringified sets; the embedding
fixes the deterministic left-to-right order for both, which is
observationally equal up to ordering. -/
def merge_data (existing new_data : Obj) : Obj :=
  (((existing.map Prod.fst) ++ (new_data.map Prod.fst)).dedup.filter
      (fun k => k ≠ "_meta")).map
    (fun k => (k, mergeField (pyGet existing k) (pyGet new_data k)))

/-- Removes a `"_meta"` key from a candidate dict; `{**data, "_meta": m}` of
the source overwrites it in any case. -/
def stripMeta (d : Obj) : Obj := d.filter (fun kv => kv.1 ≠ "_meta")

/-- Python `str(data.get('name'))` used to build a version-ledger key:
`"None"` when the key is absent. -/
def pyStrName (d : Obj) : String :=
  match aget d "name" with
  | some v => valStr v
  | none => "None"

/-- The metadata `_add_new` attaches to a fresh item. -/
def newMeta (source : String) (confidence : ℚ) (verified : Bool) : Meta :=
  { version := 1, source := source, confidence := confidence,
    verified := verified, status := "active" }

/-- The metadata `_update_existing` builds for a merged item: version bumped
by one, confidence the maximum of old and new, verification sticky, status
reset to active, feedback counters reset to the dataclass defaults. -/
def mergedMeta (existing : Item) (source : String) (confidence : ℚ)
    (verified : Bool) : Meta :=
  { version := existing.meta.version + 1, source := source,
    confidence := qmax existing.meta.confidence confidence,
    verified := verified || existing.meta.verified,
    status := "active", parent_version := some existing.meta.version }

/-- `KnowledgeManager._add_new` (messages elided). -/
def add_new (st : Store) (key : String) (data : Obj) (source : String)
    (confidence : ℚ) (verified : Bool) : Store × Bool :=
  let meta : Meta := newMeta source confidence verified
  let items := (aget st.knowledge key).getD []
  let knowledge1 := aset st.knowledge key (items ++ [⟨stripMeta data, meta⟩])
  let vk := key ++ ":" ++ pyStrName data
  let hist := (aget st.versions vk).getD []
  let record : VRecord := ⟨1, stripMeta data, meta, "初始版本"⟩
  (⟨knowledge1, aset st.versions vk (hist ++ [record])⟩, true)

/-- `KnowledgeManager._update_existing` (messages elided). -/
def update_existing (st : Store) (key : String) (idx : Nat) (data : Obj)
    (source : String) (confidence : ℚ) (verified : Bool) (changes : String) :
    Store × Bool :=
  let items := (aget st.knowledge key).getD []
  let existing := (items[idx]?).getD default
  let new_meta : Meta := mergedMeta existing source confidence verified
  let merged := merge_data existing.data data
  let knowledge1 := aset st.knowledge key (items.set idx ⟨merged, new_meta⟩)
  let vk := key ++ ":" ++ pyStrName data
  let hist := (aget st.versions vk).getD []
  let record : VRecord :=
    ⟨new_meta.version, merged, new_meta,
      if changes = "" then "数据更新" else changes⟩
  (⟨knowledge1, aset st.versions vk (hist ++ [record])⟩, true)

/-- The `if key not in knowledge: knowledge[key] = []` step of
`add_knowledge`. -/
def ensure_key (m : List (String × List Item)) (key : String) :
    List (String × List Item) :=
  if hasKey m key then m else aset m key []

/-- `KnowledgeManager.add_knowledge` — the spec's `addOrMerge` (messages
elided).  `confidence = none` models the `confidence=None` default that picks
the source's default confidence. -/
def add_knowledge (st : Store) (data : Obj) (data_type : String)
    (source : String) (confidence : Option ℚ) (verified : Bool)
    (changes : String) : Store × Bool :=
  let key := get_type_key data_type
  let knowledge1 := ensure_key st.knowledge key
  let st1 : Store := ⟨knowledge1, st.versions⟩
  let conf :=
    confidence.getD ((aget DEFAULT_CONFIDENCE source).getD (q 7 10))
  let items := (aget knowledge1 key).getD []
  match find_existing data items with
  | some (idx, _) => update_existing st1 key idx data source conf verified changes
  | none => add_new st1 key data source conf verified

/-- Index of the first item whose stored name equals `name` exactly
(`item.get("name") == name` of the source: only a string value can be equal
to the queried string). -/
def findName (items : List Item) (name : String) : Option Nat :=
  items.findIdx? (fun it => decide (aget it.data "name" = some (Val.vstr name)))

/-- `KnowledgeManager.add_feedback` (messages elided). -/
def add_feedback (st : Store) (data_type : String) (name : String)
    (is_positive : Bool) : Store × Bool :=
  let key := get_type_key data_type
  match aget st.knowledge key with
  | none => (st, false)
  | some items =>
      match findName items name with
      | none => (st, false)
      | some idx =>
          let it := (items[idx]?).getD default
          let m := it.meta
          let fc := m.feedback_count + 1
          let p :=
            if is_positive then m.positive_feedback + 1 else m.positive_feedback
          let n :=
            if is_positive then m.negative_feedback else m.negative_feedback + 1
          let total := p + n
          let status1 :=
            if total > 0 then
              if qdiv (p : ℚ) (total : ℚ) < q 3 10 ∧ total ≥ 5 then
                "deprecated"
              else if qdiv (p : ℚ) (total : ℚ) < q 1 2 ∧ total ≥ 3 then
                "pending"
              else m.status
            else m.status
          let m1 : Meta :=
            { m with feedback_count := fc, positive_feedback := p,
                     negative_feedback := n, status := status1 }
          (⟨aset st.knowledge key (items.set idx ⟨it.data, m1⟩), st.versions⟩,
            true)

/-- `KnowledgeManager.verify_knowledge` (timestamp and messages elided). -/
def verify_knowledge (st : Store) (data_type : String) (name : String)
    (verified_by : String) : Store × Bool :=
  let key := get_type_key data_type
  match aget st.knowledge key with
  | none => (st, false)
  | some items =>
      match findName items name with
      | none => (st, false)
      | some idx =>
          let it := (items[idx]?).getD default
          let m1 : Meta :=
            { it.meta with verified := true, verified_by := some verified_by,
                           confidence := 1, status := "active" }
          (⟨aset st.knowledge key (items.set idx ⟨it.data, m1⟩), st.versions⟩,
            true)

/-- Categories known to the schema registry (`SCHEMA_MAP` keys of
`src/config/schemas.py`). -/
def SCHEMA_TYPES : List String := ["fish", "lure", "rig", "spot_type"]

/-- `validate_data` of `src/config/schemas.py`: fails closed on an unknown
category or a missing/falsy `name`. -/
def validate_data (data : Obj) (data_type : String) : Bool :=
  SCHEMA_TYPES.contains data_type &&
    (match aget data "name" with
     | some v => valTruthy v
     | none => false)

/-- `SearchResult` of `src/skills/vector_store.py`: the matched item, its
score, its category key, and the provenance tag. -/
structure SR where
  item : Item
  score : ℚ
  data_type : String
  search_type : String
deriving DecidableEq

/-- The fusion key `f"{result.data_type}:{result.data.get('name')}"`. -/
def srKey (r : SR) : String := r.data_type ++ ":" ++ pyStrName r.item.data

/-- Contribution of one data field in the field loop of
`VectorStore._keyword_search`: keys starting with `_` are skipped, a string
field containing the query adds `0.3`, a list field whose first matching
string element contains the query adds `0.2`. -/
def fieldScore (ql : String) (kv : String × Val) : ℚ :=
  if "_".data.isPrefixOf kv.1.data then 0
  else
    match kv.2 with
    | Val.vstr s => if substrB ql (strLower s) then q 3 10 else 0
    | Val.vlist xs =>
        if xs.any (fun v => match v with
            | Val.vstr s => substrB ql (strLower s)
            | _ => false) then q 2 10
        else 0
    | _ => 0

/-- Keyword score of one item in `VectorStore._keyword_search`, accumulated
exactly as the source does: name bonus, then alias bonus, then the loop over
every field of the item dict (which does not exclude `name` or `aliases`). -/
def keyword_score (query : String) (it : Item) : ℚ :=
  let ql := strLower query
  let name := strLower (getStrD it.data "name" "")
  let s1 : ℚ :=
    if substrB ql name || substrB name ql then qadd 0 (q 8 10) else 0
  let s2 : ℚ :=
    if (aliasStrs it.data).any (fun a => substrB ql (strLower a))
    then qadd s1 (q 6 10) else s1
  it.data.foldl (fun sc kv => qadd sc (fieldScore ql kv)) s2

/-- `VectorStore._keyword_search` over a loaded knowledge collection:
scores every item of the selected categories, keeps the strictly positive
scores, sorts descending and truncates.  Python's `sort` is a stable sort
and a stable sort's output is unique, so the stable `insertionSort`
computes exactly it. -/
def keyword_search (knowledge : List (String × List Item)) (query : String)
    (data_type : Option String) (top_k : Nat) : List SR :=
  let type_keys :=
    match data_type with
    | some dt => [dt]
    | none => knowledge.map Prod.fst
  let results :=
    (type_keys.map (fun tk =>
      ((aget knowledge tk).getD []).filterMap (fun it =>
        let sc := keyword_score query it
        if sc > 0 then some (⟨it, sc, tk, "keyword"⟩ : SR) else none))).flatten
  (results.insertionSort (fun a b => b.score ≤ a.score)).take top_k

/-- The `combined` dict of `VectorStore.hybrid_search`: semantic results are
inserted scaled by `semantic_weight`, then keyword results either augment an
existing entry (provenance `hybrid`) or are inserted scaled by
`1 - semantic_weight` (provenance `keyword`). -/
def combinedMap (semantic keyword : List SR) (semantic_weight : ℚ) :
    List (String × SR) :=
  let c0 :=
    semantic.foldl
      (fun c r =>
        aset c (srKey r)
          ⟨r.item, qmul r.score semantic_weight, r.data_type, "semantic"⟩)
      []
  let kw := qsub 1 semantic_weight
  keyword.foldl
    (fun c r =>
      match aget c (srKey r) with
      | some ex =>
          aset c (srKey r)
            ⟨ex.item, qadd ex.score (qmul r.score kw), ex.data_type, "hybrid"⟩
      | none =>
          aset c (srKey r) ⟨r.item, qmul r.score kw, r.data_type, "keyword"⟩)
    c0

/-- Fusion step of `VectorStore.hybrid_search`, taking the two result lists
as inputs (the semantic path needs the external embedding backend): combine
by key, sort descending by score, truncate to `top_k`. -/
def hybrid_combine (semantic keyword : List SR) (semantic_weight : ℚ)
    (top_k : Nat) : List SR :=
  (((combinedMap semantic keyword semantic_weight).map Prod.snd).insertionSort
      (fun a b => b.score ≤ a.score)).take top_k

/-- The arguments of one `add_knowledge` call, for reasoning about call
sequences. -/
structure AddOp where
  data : Obj
  data_type : String
  source : String
  confidence : Option ℚ
  verified : Bool
  changes : String

/-- The store after one `add_knowledge` call. -/
def applyAdd (st : Store) (op : AddOp) : Store :=
  (add_knowledge st op.data op.data_type op.source op.confidence op.verified
    op.changes).1

/-- The store after a sequence of `add_knowledge` calls. -/
def runAdds (st : Store) (ops : List AddOp) : Store := ops.foldl applyAdd st

/-- The item at position `i` of category `k` of the store, if any.  Items are
only ever updated in place or appended, so this position tracks one item
through a run. -/
def itemAt (st : Store) (k : String) (i : Nat) : Option Item :=
  ((aget st.knowledge k).getD [])[i]?

/-- The arguments of one `add_feedback` call, for reasoning about call
sequences. -/
structure FbOp where
  data_type : String
  name : String
  is_positive : Bool

/-- The store after one `add_feedback` call. -/
def applyFb (st : Store) (op : FbOp) : Store :=
  (add_feedback st op.data_type op.name op.is_positive).1

/-- The store after a sequence of `add_feedback` calls. -/
def runFbs (st : Store) (ops : List FbOp) : Store := ops.foldl applyFb st

/-- The lowercased stored name of an item. -/
def lowerName (it : Item) : String := strLower (getStrD it.data "name" "")

/-- The lowercased aliases of an item. -/
def lowerAliases (it : Item) : List String := (aliasStrs it.data).map strLower

/-- Two distinct items clash when they share a name, a name equals an alias
of the other, or they share an alias — all case-insensitively. -/
def itemsClash (a b : Item) : Bool :=
  lowerName a == lowerName b ||
  (lowerAliases b).contains (lowerName a) ||
  (lowerAliases a).contains (lowerName b) ||
  (lowerAliases a).any (fun x => (lowerAliases b).contains x)

/-- The spec's store-wide uniqueness invariant for one category: no two
items of the list clash. -/
def uniqOK : List Item → Bool
  | [] => true
  | it :: rest => rest.all (fun b => !itemsClash it b) && uniqOK rest

/-! ### Generic lemmas on the embedding's data structures -/

theorem aget_aset_self {α : Type} (m : List (String × α)) (k : String) (v : α) :
    aget (aset m k v) k = some v := by
  induction m with
  | nil => simp [aget, aset]
  | cons kv rest ih =>
      by_cases h : kv.1 = k
      · cases kv
        simp_all [aset, aget]
      · cases kv
        simp_all [aset, aget]

theorem aget_aset_ne {α : Type} (m : List (String × α)) (k : String) (v : α)
    (k' : String) (h : k' ≠ k) : aget (aset m k v) k' = aget m k' := by
  induction m with
  | nil => simp [aget, aset, Ne.symm h]
  | cons kv rest ih =>
      by_cases h2 : kv.1 = k
      · cases kv
        subst h2
        simp [aset, aget, Ne.symm h]
      · cases kv
        simp only [aset, if_neg h2, aget]
        split <;> simp [ih]

theorem qadd_eq (a b : ℚ) : qadd a b = a + b := (Rat.add_def' a b).symm

theorem qsub_eq (a b : ℚ) : qsub a b = a - b := (Rat.sub_def' a b).symm

theorem qmul_eq (a b : ℚ) : qmul a b = a * b := (Rat.mul_eq_mkRat a b).symm

theorem qdiv_eq (a b : ℚ) : qdiv a b = a / b := (Rat.div_def' a b).symm

theorem q_eq (n : Int) (d : Nat) : q n d = (n : ℚ) / (d : ℚ) := by
  rw [q, Rat.mkRat_eq_divInt, Rat.divInt_eq_div]
  norm_num

theorem qmax_eq (a b : ℚ) : qmax a b = max a b := by
  rw [qmax, max_def]

/-! ### Facts about duplicate resolution (`_find_existing`) -/

theorem find_existing_from_getElem (name : String) (items : List Item) :
    ∀ (i idx : Nat) (it : Item),
      find_existing_from name i items = some (idx, it) →
      ∃ j, idx = i + j ∧ items[j]? = some it := by
  induction items with
  | nil => intro i idx it h; simp [find_existing_from] at h
  | cons hd tl ih =>
      intro i idx it h
      rw [find_existing_from] at h
      split at h
      · exact ⟨0, by simp_all⟩
      · split at h
        · exact ⟨0, by simp_all⟩
        · obtain ⟨j, hj, hg⟩ := ih (i + 1) idx it h
          exact ⟨j + 1, by omega, by simpa using hg⟩

theorem find_existing_getElem (data : Obj) (items : List Item) (idx : Nat)
    (it : Item) (h : find_existing data items = some (idx, it)) :
    items[idx]? = some it := by
  obtain ⟨j, hj, hg⟩ := find_existing_from_getElem _ items 0 idx it h
  simpa [hj] using hg

theorem find_existing_from_matched (name : String) (items : List Item) :
    ∀ (i idx : Nat) (it : Item),
      find_existing_from name i items = some (idx, it) →
      strLower (getStrD it.data "name" "") = name ∨
        ∃ a ∈ aliasStrs it.data, strLower a = name := by
  induction items with
  | nil => intro i idx it h; simp [find_existing_from] at h
  | cons hd tl ih =>
      intro i idx it h
      rw [find_existing_from] at h
      split at h
      · cases h; simp_all
      · split at h
        · cases h
          rename_i hal
          right
          simpa using List.any_eq_true.mp hal
        · exact ih (i + 1) idx it h

theorem find_existing_from_none (name : String) (items : List Item) :
    find_existing_from name 0 items = none ↔
      ∀ it ∈ items, strLower (getStrD it.data "name" "") ≠ name ∧
        ∀ a ∈ aliasStrs it.data, strLower a ≠ name := by
  have key : ∀ (i : Nat) (l : List Item), (find_existing_from name i l = none ↔
      ∀ it ∈ l, strLower (getStrD it.data "name" "") ≠ name ∧
        ∀ a ∈ aliasStrs it.data, strLower a ≠ name) := by
    intro i l
    induction l generalizing i with
    | nil => simp [find_existing_from]
    | cons hd tl ih =>
        rw [find_existing_from]
        constructor
        · intro h
          split at h
          · cases h
          · split at h
            · cases h
            · rename_i hn hal
              intro it hit
              rcases List.mem_cons.mp hit with hcase | hcase
              · subst hcase
                refine ⟨hn, ?_⟩
                intro a ha
                by_contra hc
                exact hal (List.any_eq_true.mpr ⟨a, ha, by simp [hc]⟩)
              · exact ((ih (i + 1)).mp h) it hcase
        · intro h
          have hhd := h hd (by simp)
          rw [if_neg hhd.1, if_neg]
          · exact (ih (i + 1)).mpr (fun it hit => h it (by simp [hit]))
          · simp only [List.any_eq_true, not_exists, not_and]
            intro a ha
            simpa using hhd.2 a ha
  exact key 0 items

theorem findName_eq_none (items : List Item) (nm : String)
    (h : ∀ it ∈ items, aget it.data "name" ≠ some (Val.vstr nm)) :
    findName items nm = none := by
  rw [findName, List.findIdx?_eq_none_iff]
  intro it hit
  simpa using h it hit

/-! ### Branch equations for `add_knowledge` and frame lemmas -/

theorem aget_ensure_key (m : List (String × List Item)) (key k : String) :
    aget (ensure_key m key) k =
      if k = key ∧ aget m key = none then some [] else aget m k := by
  rw [ensure_key]
  by_cases hhas : hasKey m key
  · have hne : aget m key ≠ none := by
      intro hc
      rw [hasKey, hc] at hhas
      exact Bool.false_ne_true hhas
    simp [hhas, hne]
  · have hnone : aget m key = none := by
      rcases hv : aget m key with _ | v
      · rfl
      · rw [hasKey, hv] at hhas
        exact absurd rfl hhas
    by_cases hkk : k = key
    · subst hkk
      simp [hhas, hnone, aget_aset_self]
    · simp [hhas, hnone, hkk, aget_aset_ne m key [] k hkk]

theorem add_knowledge_branch_some (st : Store) (data : Obj)
    (data_type source : String) (confidence : Option ℚ) (verified : Bool)
    (changes : String) (idx : Nat) (ex : Item)
    (hfe : find_existing data
      ((aget (ensure_key st.knowledge (get_type_key data_type))
        (get_type_key data_type)).getD []) = some (idx, ex)) :
    add_knowledge st data data_type source confidence verified changes =
      update_existing
        ⟨ensure_key st.knowledge (get_type_key data_type), st.versions⟩
        (get_type_key data_type) idx data source
        (confidence.getD ((aget DEFAULT_CONFIDENCE source).getD (q 7 10)))
        verified changes := by
  rw [add_knowledge]
  simp only [hfe]

theorem add_knowledge_branch_none (st : Store) (data : Obj)
    (data_type source : String) (confidence : Option ℚ) (verified : Bool)
    (changes : String)
    (hfe : find_existing data
      ((aget (ensure_key st.knowledge (get_type_key data_type))
        (get_type_key data_type)).getD []) = none) :
    add_knowledge st data data_type source confidence verified changes =
      add_new ⟨ensure_key st.knowledge (get_type_key data_type), st.versions⟩
        (get_type_key data_type) data source
        (confidence.getD ((aget DEFAULT_CONFIDENCE source).getD (q 7 10)))
        verified := by
  rw [add_knowledge]
  simp only [hfe]

theorem add_knowledge_merge (st : Store) (data : Obj)
    (data_type source : String) (confidence : Option ℚ) (verified : Bool)
    (changes : String) (items : List Item) (idx : Nat) (ex : Item)
    (hk : aget st.knowledge (get_type_key data_type) = some items)
    (hfe : find_existing data items = some (idx, ex)) :
    add_knowledge st data data_type source confidence verified changes =
      update_existing st (get_type_key data_type) idx data source
        (confidence.getD ((aget DEFAULT_CONFIDENCE source).getD (q 7 10)))
        verified changes := by
  have he : ensure_key st.knowledge (get_type_key data_type) = st.knowledge := by
    rw [ensure_key, if_pos]
    rw [hasKey, hk]
    rfl
  have := add_knowledge_branch_some st data data_type source confidence
    verified changes idx ex (by rw [he, hk]; exact hfe)
  rw [this, he]

theorem update_existing_itemAt_eq (st : Store) (key : String) (idx : Nat)
    (data : Obj) (source : String) (conf : ℚ) (verified : Bool)
    (changes : String) (i : Nat) :
    itemAt (update_existing st key idx data source conf verified changes).1
        key i =
      (((aget st.knowledge key).getD []).set idx
        ⟨merge_data ((((aget st.knowledge key).getD [])[idx]?).getD
            default).data data,
          mergedMeta ((((aget st.knowledge key).getD [])[idx]?).getD default)
            source conf verified⟩)[i]? := by
  rw [update_existing, itemAt]
  simp [aget_aset_self]

theorem update_existing_itemAt_ne (st : Store) (key : String) (idx : Nat)
    (data : Obj) (source : String) (conf : ℚ) (verified : Bool)
    (changes : String) (k : String) (i : Nat) (hkk : k ≠ key) :
    itemAt (update_existing st key idx data source conf verified changes).1
      k i = itemAt st k i := by
  rw [update_existing, itemAt, itemAt]
  simp [aget_aset_ne _ _ _ _ hkk]

theorem add_new_itemAt_eq (st : Store) (key : String) (data : Obj)
    (source : String) (conf : ℚ) (verified : Bool) (i : Nat) :
    itemAt (add_new st key data source conf verified).1 key i =
      (((aget st.knowledge key).getD []) ++
        [⟨stripMeta data, newMeta source conf verified⟩])[i]? := by
  rw [add_new, itemAt]
  simp [aget_aset_self]

theorem add_new_itemAt_ne (st : Store) (key : String) (data : Obj)
    (source : String) (conf : ℚ) (verified : Bool) (k : String) (i : Nat)
    (hkk : k ≠ key) :
    itemAt (add_new st key data source conf verified).1 k i = itemAt st k i := by
  rw [add_new, itemAt, itemAt]
  simp [aget_aset_ne _ _ _ _ hkk]

/-! ### Confidence monotonicity -/

theorem applyAdd_confidence_mono (st : Store) (op : AddOp) (k : String)
    (i : Nat) (it : Item) (h : itemAt st k i = some it) :
    ∃ it2, itemAt (applyAdd st op) k i = some it2 ∧
      it.meta.confidence ≤ it2.meta.confidence := by
  rw [applyAdd]
  rcases hfe : find_existing op.data
      ((aget (ensure_key st.knowledge (get_type_key op.data_type))
        (get_type_key op.data_type)).getD []) with _ | ⟨idx, ex⟩
  · rw [add_knowledge_branch_none st op.data op.data_type op.source
      op.confidence op.verified op.changes hfe]
    by_cases hkk : k = get_type_key op.data_type
    · subst hkk
      rw [add_new_itemAt_eq]
      rcases hsk : aget st.knowledge (get_type_key op.data_type) with _ | items
      · rw [itemAt, hsk] at h
        simp at h
      · have hens : aget
            (ensure_key st.knowledge (get_type_key op.data_type))
            (get_type_key op.data_type) = some items := by
          rw [aget_ensure_key]
          simp [hsk]
        rw [itemAt, hsk, Option.getD_some] at h
        have hlt : i < items.length := (List.getElem?_eq_some_iff.mp h).1
        refine ⟨it, ?_, le_refl _⟩
        simp only [hens, Option.getD_some]
        rw [List.getElem?_append_left hlt]
        exact h
    · refine ⟨it, ?_, le_refl _⟩
      rw [add_new_itemAt_ne _ _ _ _ _ _ _ _ hkk]
      rw [itemAt, aget_ensure_key]
      have : ¬(k = get_type_key op.data_type ∧
          aget st.knowledge (get_type_key op.data_type) = none) := by
        intro hc
        exact hkk hc.1
      rw [if_neg this]
      exact h
  · rw [add_knowledge_branch_some st op.data op.data_type op.source
      op.confidence op.verified op.changes idx ex hfe]
    by_cases hkk : k = get_type_key op.data_type
    · subst hkk
      rw [update_existing_itemAt_eq]
      rcases hsk : aget st.knowledge (get_type_key op.data_type) with _ | items
      · rw [itemAt, hsk] at h
        simp at h
      · have hens : aget
            (ensure_key st.knowledge (get_type_key op.data_type))
            (get_type_key op.data_type) = some items := by
          rw [aget_ensure_key]
          simp [hsk]
        rw [itemAt, hsk, Option.getD_some] at h
        simp only [hens, Option.getD_some]
        by_cases hii : i = idx
        · subst hii
          have hlt : i < items.length := (List.getElem?_eq_some_iff.mp h).1
          refine ⟨_, List.getElem?_set_self hlt, ?_⟩
          simp only [h, Option.getD_some, mergedMeta]
          rw [qmax_eq]
          exact le_max_left _ _
        · refine ⟨it, ?_, le_refl _⟩
          rw [List.getElem?_set_ne (fun he => hii he.symm)]
          exact h
    · refine ⟨it, ?_, le_refl _⟩
      rw [update_existing_itemAt_ne _ _ _ _ _ _ _ _ _ _ hkk]
      rw [itemAt, aget_ensure_key]
      have : ¬(k = get_type_key op.data_type ∧
          aget st.knowledge (get_type_key op.data_type) = none) := by
        intro hc
        exact hkk hc.1
      rw [if_neg this]
      exact h

theorem runAdds_confidence_mono (ops : List AddOp) (st : Store) (k : String)
    (i : Nat) (it : Item) (h : itemAt st k i = some it) :
    ∃ it2, itemAt (runAdds st ops) k i = some it2 ∧
      it.meta.confidence ≤ it2.meta.confidence := by
  induction ops generalizing st it with
  | nil => exact ⟨it, h, le_refl _⟩
  | cons op rest ih =>
      obtain ⟨it1, h1, hle1⟩ := applyAdd_confidence_mono st op k i it h
      obtain ⟨it2, h2, hle2⟩ := ih (applyAdd st op) it1 h1
      exact ⟨it2, h2, le_trans hle1 hle2⟩

/-! ### Claim C1: confidence monotonicity -/

/-- C1: on every merge into an existing item the new confidence is the
maximum of the stored confidence and the supplied (or source-default)
confidence, hence at least the stored one; and along every sequence of
`add_knowledge` calls, the confidence of the item at any fixed position
never decreases. -/
theorem c1_confidence_monotone :
    (∀ (st : Store) (data : Obj) (data_type source : String)
        (confidence : Option ℚ) (verified : Bool) (changes : String)
        (items : List Item) (idx : Nat) (ex : Item),
      aget st.knowledge (get_type_key data_type) = some items →
      find_existing data items = some (idx, ex) →
      ∃ it2,
        itemAt (add_knowledge st data data_type source confidence verified
            changes).1 (get_type_key data_type) idx = some it2 ∧
        it2.meta.confidence =
          max ex.meta.confidence
            (confidence.getD
              ((aget DEFAULT_CONFIDENCE source).getD (7/10))) ∧
        ex.meta.confidence ≤ it2.meta.confidence) ∧
    (∀ (ops : List AddOp) (st : Store) (k : String) (i : Nat) (it : Item),
      itemAt st k i = some it →
      ∃ it2, itemAt (runAdds st ops) k i = some it2 ∧
        it.meta.confidence ≤ it2.meta.confidence) := by
  constructor
  · intro st data data_type source confidence verified changes items idx ex
      hk hfe
    rw [add_knowledge_merge st data data_type source confidence verified
      changes items idx ex hk hfe]
    rw [update_existing_itemAt_eq]
    have hidx : items[idx]? = some ex := find_existing_getElem data items idx
      ex hfe
    have hlt : idx < items.length := (List.getElem?_eq_some_iff.mp hidx).1
    simp only [hk, Option.getD_some, hidx]
    refine ⟨_, List.getElem?_set_self hlt, ?_, ?_⟩
    · simp only [mergedMeta, Option.getD_some]
      rw [qmax_eq]
      have hq : q 7 10 = (7/10 : ℚ) := by
        rw [q_eq]
        norm_num
      rw [hq]
    · simp only [mergedMeta, Option.getD_some]
      rw [qmax_eq]
      exact le_max_left _ _
  · exact fun ops => runAdds_confidence_mono ops

/-- C1, witness: the per-merge part at a store holding one item named
`"Bass"` with confidence 1/2 merged with a same-named record at source
default confidence, and the sequence part for that one call. -/
theorem c1_confidence_monotone_witness :
    (aget
        (⟨[("fish_species",
            [⟨[("name", Val.vstr "Bass")], {confidence := q 1 2}⟩])], []⟩ :
          Store).knowledge (get_type_key "fish") =
      some [⟨[("name", Val.vstr "Bass")], {confidence := q 1 2}⟩] ∧
    find_existing [("name", Val.vstr "Bass")]
        [⟨[("name", Val.vstr "Bass")], {confidence := q 1 2}⟩] =
      some (0, ⟨[("name", Val.vstr "Bass")], {confidence := q 1 2}⟩)) ∧
    (∃ it2,
      itemAt (add_knowledge
          (⟨[("fish_species",
              [⟨[("name", Val.vstr "Bass")], {confidence := q 1 2}⟩])], []⟩ :
            Store)
          [("name", Val.vstr "Bass")] "fish" "manual" none false "").1
          (get_type_key "fish") 0 = some it2 ∧
      it2.meta.confidence =
        max (⟨[("name", Val.vstr "Bass")],
          {confidence := q 1 2}⟩ : Item).meta.confidence
          ((none : Option ℚ).getD
            ((aget DEFAULT_CONFIDENCE "manual").getD (7/10))) ∧
      (⟨[("name", Val.vstr "Bass")],
        {confidence := q 1 2}⟩ : Item).meta.confidence ≤
        it2.meta.confidence) ∧
    (∃ it2,
      itemAt (runAdds
          (⟨[("fish_species",
              [⟨[("name", Val.vstr "Bass")], {confidence := q 1 2}⟩])], []⟩ :
            Store)
          [⟨[("name", Val.vstr "Bass")], "fish", "manual", none, false, ""⟩])
          "fish_species" 0 = some it2 ∧
      (⟨[("name", Val.vstr "Bass")],
        {confidence := q 1 2}⟩ : Item).meta.confidence ≤
        it2.meta.confidence) := by
  refine ⟨⟨by decide, by decide⟩, ?_, ?_⟩
  · exact (c1_confidence_monotone.1
      ⟨[("fish_species",
          [⟨[("name", Val.vstr "Bass")], {confidence := q 1 2}⟩])], []⟩
      [("name", Val.vstr "Bass")] "fish" "manual" none false ""
      [⟨[("name", Val.vstr "Bass")], {confidence := q 1 2}⟩] 0
      ⟨[("name", Val.vstr "Bass")], {confidence := q 1 2}⟩
      (by decide) (by decide))
  · exact (c1_confidence_monotone.2
      [⟨[("name", Val.vstr "Bass")], "fish", "manual", none, false, ""⟩]
      ⟨[("fish_species",
          [⟨[("name", Val.vstr "Bass")], {confidence := q 1 2}⟩])], []⟩
      "fish_species" 0
      ⟨[("name", Val.vstr "Bass")], {confidence := q 1 2}⟩
      (by decide))

/-! ### Frame facts for `add_feedback` and feedback runs -/

theorem applyFb_frame (st : Store) (op : FbOp) (k : String) (i : Nat)
    (it : Item) (h : itemAt st k i = some it) :
    ∃ it2, itemAt (applyFb st op) k i = some it2 ∧ it2.data = it.data ∧
      it2.meta.version = it.meta.version ∧
      (it2.meta.status = it.meta.status ∨ it2.meta.status = "deprecated" ∨
        it2.meta.status = "pending") := by
  rw [applyFb, add_feedback]
  cases hk2 : aget st.knowledge (get_type_key op.data_type) with
  | none => exact ⟨it, h, rfl, rfl, Or.inl rfl⟩
  | some items2 =>
      cases hf2 : findName items2 op.name with
      | none =>
          simp only [hf2]
          exact ⟨it, h, rfl, rfl, Or.inl rfl⟩
      | some idx2 =>
          simp only [hf2]
          by_cases hkk : k = get_type_key op.data_type
          · subst hkk
            rw [itemAt, hk2, Option.getD_some] at h
            rw [itemAt]
            simp only [aget_aset_self, Option.getD_some]
            by_cases hii : i = idx2
            · subst hii
              have hlt : i < items2.length := (List.getElem?_eq_some_iff.mp h).1
              refine ⟨_, List.getElem?_set_self hlt, ?_⟩
              simp only [h, Option.getD_some]
              refine ⟨trivial, trivial, ?_⟩
              split_ifs <;>
                first
                  | exact Or.inl rfl
                  | exact Or.inr (Or.inl rfl)
                  | exact Or.inr (Or.inr rfl)
            · refine ⟨it, ?_, rfl, rfl, Or.inl rfl⟩
              rw [List.getElem?_set_ne (fun he => hii he.symm)]
              exact h
          · refine ⟨it, ?_, rfl, rfl, Or.inl rfl⟩
            rw [itemAt]
            simp only [aget_aset_ne _ _ _ _ hkk]
            exact h

theorem runFbs_status_closed (ops : List FbOp) (st : Store) (k : String)
    (i : Nat) (it : Item) (h : itemAt st k i = some it)
    (hs : it.meta.status = "deprecated" ∨ it.meta.status = "pending") :
    ∃ it2, itemAt (runFbs st ops) k i = some it2 ∧
      (it2.meta.status = "deprecated" ∨ it2.meta.status = "pending") := by
  induction ops generalizing st it with
  | nil => exact ⟨it, h, hs⟩
  | cons op rest ih =>
      obtain ⟨it1, h1, _, _, hst1⟩ := applyFb_frame st op k i it h
      have hs1 : it1.meta.status = "deprecated" ∨ it1.meta.status = "pending" := by
        rcases hst1 with heq | h1' | h1'
        · rw [heq]
          exact hs
        · exact Or.inl h1'
        · exact Or.inr h1'
      exact ih (applyFb st op) it1 h1 hs1

/-! ### Claim C9: feedback cannot restore `active` -/

/-- C9, counterexample: the claim's negation.  For no store, deprecated item
and sequence of `add_feedback` calls does the item's status come back to
`active`: the transition rule only ever writes `deprecated` or `pending`,
never `active`, so from `deprecated` the status stays in
`{deprecated, pending}` forever. -/
theorem c9_feedback_reversibility_counterexample :
    ¬ ∃ (st : Store) (k : String) (i : Nat) (it : Item) (ops : List FbOp),
      itemAt st k i = some it ∧ it.meta.status = "deprecated" ∧
      ∃ it2, itemAt (runFbs st ops) k i = some it2 ∧
        it2.meta.status = "active" := by
  rintro ⟨st, k, i, it, ops, h, hs, it2, h2, ha⟩
  obtain ⟨it3, h3, hs3⟩ := runFbs_status_closed ops st k i it h (Or.inl hs)
  rw [h2] at h3
  cases Option.some.inj h3
  rcases hs3 with hbad | hbad <;> rw [ha] at hbad <;> exact absurd hbad (by decide)

/-- C9, amended: the status transition is recomputed on every feedback
event, so feedback alone can move a `deprecated` item (it concretely reaches
`pending` after enough positive feedback), but it can never restore
`active`: `add_feedback` only ever writes `deprecated` or `pending`, so from
a deprecated or pending status every feedback run stays in
`{deprecated, pending}`. -/
theorem c9_feedback_reversibility_amended :
    (∀ (st : Store) (k : String) (i : Nat) (it : Item) (ops : List FbOp),
      itemAt st k i = some it →
      (it.meta.status = "deprecated" ∨ it.meta.status = "pending") →
      ∃ it2, itemAt (runFbs st ops) k i = some it2 ∧
        (it2.meta.status = "deprecated" ∨ it2.meta.status = "pending")) ∧
    (∃ it2,
      itemAt
        (runFbs
          (⟨[("fish_species",
              [⟨[("name", Val.vstr "Bass")],
                {feedback_count := 5, positive_feedback := 1,
                  negative_feedback := 4, status := "deprecated"}⟩])], []⟩ :
            Store)
          [⟨"fish", "Bass", true⟩, ⟨"fish", "Bass", true⟩,
            ⟨"fish", "Bass", true⟩, ⟨"fish", "Bass", true⟩])
        "fish_species" 0 = some it2 ∧
      it2.meta.status = "pending") := by
  constructor
  · exact fun st k i it ops h hs => runFbs_status_closed ops st k i it h hs
  · decide

/-- C9, amended, witness: the closure part applied to the concrete
deprecated one-item store and the four-positive-feedback run. -/
theorem c9_feedback_reversibility_amended_witness :
    itemAt
        (⟨[("fish_species",
            [⟨[("name", Val.vstr "Bass")],
              {feedback_count := 5, positive_feedback := 1,
                negative_feedback := 4, status := "deprecated"}⟩])], []⟩ :
          Store) "fish_species" 0 =
      some ⟨[("name", Val.vstr "Bass")],
        {feedback_count := 5, positive_feedback := 1, negative_feedback := 4,
          status := "deprecated"}⟩ ∧
    ∃ it2,
      itemAt
        (runFbs
          (⟨[("fish_species",
              [⟨[("name", Val.vstr "Bass")],
                {feedback_count := 5, positive_feedback := 1,
                  negative_feedback := 4, status := "deprecated"}⟩])], []⟩ :
            Store)
          [⟨"fish", "Bass", true⟩, ⟨"fish", "Bass", true⟩,
            ⟨"fish", "Bass", true⟩, ⟨"fish", "Bass", true⟩])
        "fish_species" 0 = some it2 ∧
      (it2.meta.status = "deprecated" ∨ it2.meta.status = "pending") := by
  refine ⟨by decide, ?_⟩
  exact c9_feedback_reversibility_amended.1
    ⟨[("fish_species",
        [⟨[("name", Val.vstr "Bass")],
          {feedback_count := 5, positive_feedback := 1,
            negative_feedback := 4, status := "deprecated"}⟩])], []⟩
    "fish_species" 0
    ⟨[("name", Val.vstr "Bass")],
      {feedback_count := 5, positive_feedback := 1, negative_feedback := 4,
        status := "deprecated"}⟩
    [⟨"fish", "Bass", true⟩, ⟨"fish", "Bass", true⟩,
      ⟨"fish", "Bass", true⟩, ⟨"fish", "Bass", true⟩]
    (by decide) (by decide)

/-! ### Claim C3: store-wide uniqueness -/

/-- C3, counterexample: starting from a store satisfying the uniqueness
invariant (one item named `"x"`, itself built by `add_knowledge` on the
empty store), the accepted call adding `{name: "yy", aliases: ["x"]}` is not
recognised as a duplicate — `_find_existing` never looks at the candidate's
aliases — and leaves the category with a second item whose alias equals the
first item's name, violating the invariant. -/
theorem c3_uniqueness_counterexample :
    (let s0 := (add_knowledge ⟨[], []⟩ [("name", Val.vstr "x")] "fish"
      "manual" none false "").1
     let r := add_knowledge s0
      [("name", Val.vstr "yy"), ("aliases", Val.vlist [Val.vstr "x"])]
      "fish" "manual" none false ""
     uniqOK ((aget s0.knowledge "fish_species").getD []) = true ∧
     r.2 = true ∧
     uniqOK ((aget r.1.knowledge "fish_species").getD []) = false) := by
  decide

/-- C3, amended: duplicate resolution checks only the candidate's name.
When `add_knowledge` accepts a record as new, the record's lowercased name
differs from every existing item's name and aliases in the category, and the
store gains exactly the new item appended at the end — but the candidate's
own aliases are never compared against existing items, so they may collide
(as the counterexample shows). -/
theorem c3_uniqueness_amended (st : Store) (data : Obj)
    (data_type source : String) (confidence : Option ℚ) (verified : Bool)
    (changes : String) (items : List Item)
    (hk : aget st.knowledge (get_type_key data_type) = some items)
    (hfe : find_existing data items = none) :
    (∀ it ∈ items,
      lowerName it ≠ strLower (getStrD data "name" "") ∧
      strLower (getStrD data "name" "") ∉ lowerAliases it) ∧
    (add_knowledge st data data_type source confidence verified
        changes).1.knowledge =
      aset st.knowledge (get_type_key data_type)
        (items ++ [⟨stripMeta data,
          newMeta source
            (confidence.getD ((aget DEFAULT_CONFIDENCE source).getD (q 7 10)))
            verified⟩]) := by
  constructor
  · intro it hit
    have hall := (find_existing_from_none
      (strLower (getStrD data "name" "")) items).mp hfe
    obtain ⟨hn, ha⟩ := hall it hit
    refine ⟨fun hc => hn hc, ?_⟩
    intro hc
    rw [lowerAliases] at hc
    obtain ⟨a, ha2, ha3⟩ := List.mem_map.mp hc
    exact ha a ha2 ha3
  · have he : ensure_key st.knowledge (get_type_key data_type) =
        st.knowledge := by
      rw [ensure_key, if_pos]
      rw [hasKey, hk]
      rfl
    rw [add_knowledge_branch_none st data data_type source confidence
      verified changes (by rw [he, hk]; exact hfe)]
    rw [add_new]
    simp only [he, hk, Option.getD_some]

/-- C3, amended, witness: the amended theorem applied to the
counterexample's store of one item named `"x"` and the candidate
`{name: "yy", aliases: ["x"]}`. -/
theorem c3_uniqueness_amended_witness :
    aget
        (⟨[("fish_species", [⟨[("name", Val.vstr "x")], {}⟩])], []⟩ :
          Store).knowledge (get_type_key "fish") =
      some [⟨[("name", Val.vstr "x")], {}⟩] ∧
    find_existing
        [("name", Val.vstr "yy"), ("aliases", Val.vlist [Val.vstr "x"])]
        [⟨[("name", Val.vstr "x")], {}⟩] = none ∧
    ((∀ it ∈ [(⟨[("name", Val.vstr "x")], {}⟩ : Item)],
      lowerName it ≠ strLower (getStrD
        [("name", Val.vstr "yy"), ("aliases", Val.vlist [Val.vstr "x"])]
        "name" "") ∧
      strLower (getStrD
        [("name", Val.vstr "yy"), ("aliases", Val.vlist [Val.vstr "x"])]
        "name" "") ∉ lowerAliases it) ∧
    (add_knowledge
        (⟨[("fish_species", [⟨[("name", Val.vstr "x")], {}⟩])], []⟩ : Store)
        [("name", Val.vstr "yy"), ("aliases", Val.vlist [Val.vstr "x"])]
        "fish" "manual" none false "").1.knowledge =
      aset
        (⟨[("fish_species", [⟨[("name", Val.vstr "x")], {}⟩])], []⟩ :
          Store).knowledge (get_type_key "fish")
        ([⟨[("name", Val.vstr "x")], {}⟩] ++
          [⟨stripMeta [("name", Val.vstr "yy"),
              ("aliases", Val.vlist [Val.vstr "x"])],
            newMeta "manual"
              ((none : Option ℚ).getD
                ((aget DEFAULT_CONFIDENCE "manual").getD (q 7 10)))
              false⟩])) := by
  refine ⟨by decide, by decide, ?_⟩
  exact c3_uniqueness_amended
    ⟨[("fish_species", [⟨[("name", Val.vstr "x")], {}⟩])], []⟩
    [("name", Val.vstr "yy"), ("aliases", Val.vlist [Val.vstr "x"])]
    "fish" "manual" none false ""
    [⟨[("name", Val.vstr "x")], {}⟩]
    (by decide) (by decide)

/-! ### Lookup in merged data -/

theorem aget_graph {α : Type} (L : List String) (f : String → α) (k : String) :
    aget (L.map (fun x => (x, f x))) k = if k ∈ L then some (f k) else none := by
  induction L with
  | nil => simp [aget]
  | cons a L ih =>
      simp only [List.map_cons, aget]
      by_cases hak : a = k
      · subst hak
        simp
      · rw [if_neg hak, ih]
        by_cases hkL : k ∈ L
        · simp [hkL]
        · simp [hkL, Ne.symm hak]

theorem aget_merge_data (e nd : Obj) (k : String) (hk : k ≠ "_meta") :
    aget (merge_data e nd) k =
      if k ∈ e.map Prod.fst ++ nd.map Prod.fst then
        some (mergeField (pyGet e k) (pyGet nd k))
      else none := by
  rw [merge_data, aget_graph]
  by_cases hmem : k ∈ e.map Prod.fst ++ nd.map Prod.fst
  · rw [if_pos, if_pos hmem]
    rw [List.mem_filter]
    exact ⟨List.mem_dedup.mpr hmem, by simp [hk]⟩
  · rw [if_neg, if_neg hmem]
    intro hc
    exact hmem (List.mem_dedup.mp (List.mem_filter.mp hc).1)

theorem pyGet_eq_some (d : Obj) (k : String) (v : Val)
    (h : pyGet d k = some v) : aget d k = some v := by
  rw [pyGet] at h
  rcases ha : aget d k with _ | w
  · rw [ha] at h
    cases h
  · rw [ha] at h
    cases w <;> simp_all

theorem aget_mem_keys {α : Type} (m : List (String × α)) (k : String) (v : α)
    (h : aget m k = some v) : k ∈ m.map Prod.fst := by
  induction m with
  | nil => cases h
  | cons kv rest ih =>
      rw [aget] at h
      by_cases hkk : kv.1 = k
      · simp [hkk.symm]
      · rw [if_neg (by cases kv; exact hkk)] at h
        simp [ih h]

/-- A merge whose candidate carries the item's exact stored name keeps that
name: the merged `name` field is the same string. -/
theorem merged_name (e nd : Obj) (n : String)
    (hnd : aget nd "name" = some (Val.vstr n))
    (he : getStrD e "name" "" = n) :
    getStrD (merge_data e nd) "name" "" = n := by
  have hmem : "name" ∈ e.map Prod.fst ++ nd.map Prod.fst :=
    List.mem_append_right _ (aget_mem_keys nd "name" (Val.vstr n) hnd)
  have hpnd : pyGet nd "name" = some (Val.vstr n) := by
    rw [pyGet, hnd]
  rw [getStrD, aget_merge_data _ _ _ (by decide), if_pos hmem, hpnd]
  rcases hpe : pyGet e "name" with _ | v
  · simp [mergeField]
  · cases v with
    | vstr s =>
        have hs : s = n := by
          have := pyGet_eq_some e "name" (Val.vstr s) hpe
          rw [getStrD, this] at he
          exact he
        rw [hs]
        simp [mergeField]
    | vnull => simp [mergeField]
    | vbool b => simp [mergeField]
    | vint m => simp [mergeField]
    | vlist xs => simp [mergeField]

/-! ### Version ledger frame facts for verify and feedback -/

theorem verify_versions (st : Store) (dt nm vb : String) :
    (verify_knowledge st dt nm vb).1.versions = st.versions := by
  rw [verify_knowledge]
  cases h1 : aget st.knowledge (get_type_key dt) with
  | none => rfl
  | some items =>
      cases h2 : findName items nm with
      | none => simp only [h2]
      | some idx => simp only [h2]

theorem fb_versions (st : Store) (dt nm : String) (pos : Bool) :
    (add_feedback st dt nm pos).1.versions = st.versions := by
  rw [add_feedback]
  cases h1 : aget st.knowledge (get_type_key dt) with
  | none => rfl
  | some items =>
      cases h2 : findName items nm with
      | none => simp only [h2]
      | some idx => simp only [h2]

theorem verify_itemAt_version (st : Store) (dt nm vb k : String) (i : Nat)
    (it : Item) (h : itemAt st k i = some it) :
    ∃ it2, itemAt (verify_knowledge st dt nm vb).1 k i = some it2 ∧
      it2.data = it.data ∧ it2.meta.version = it.meta.version := by
  rw [verify_knowledge]
  cases h1 : aget st.knowledge (get_type_key dt) with
  | none => exact ⟨it, h, rfl, rfl⟩
  | some items =>
      cases h2 : findName items nm with
      | none =>
          simp only [h2]
          exact ⟨it, h, rfl, rfl⟩
      | some idx =>
          simp only [h2]
          by_cases hkk : k = get_type_key dt
          · subst hkk
            rw [itemAt, h1, Option.getD_some] at h
            rw [itemAt]
            simp only [aget_aset_self, Option.getD_some]
            by_cases hii : i = idx
            · subst hii
              have hlt : i < items.length := (List.getElem?_eq_some_iff.mp h).1
              refine ⟨_, List.getElem?_set_self hlt, ?_⟩
              simp only [h, Option.getD_some]
              exact ⟨trivial, trivial⟩
            · refine ⟨it, ?_, rfl, rfl⟩
              rw [List.getElem?_set_ne (fun he2 => hii he2.symm)]
              exact h
          · refine ⟨it, ?_, rfl, rfl⟩
            rw [itemAt]
            simp only [aget_aset_ne _ _ _ _ hkk]
            exact h

/-! ### Claim C2: version / history-length correspondence -/

/-- C2, counterexample: `add_knowledge` on the empty store creates
`{name: "Bass", aliases: ["LB"]}`, recording version 1 under the ledger key
`"fish_species:Bass"`.  A second call with `{name: "lb"}` merges into that
item through the alias match, bumps its version to 2 — the item keeps the
name `"Bass"` — but appends its version record under `"fish_species:lb"`,
so the history under the item's own `category:name` key has length 1, not
2. -/
theorem c2_version_history_counterexample :
    (let st1 := (add_knowledge ⟨[], []⟩
      [("name", Val.vstr "Bass"), ("aliases", Val.vlist [Val.vstr "LB"])]
      "fish" "manual" none false "").1
     let r := add_knowledge st1 [("name", Val.vstr "lb")] "fish" "manual"
      none false ""
     r.2 = true ∧
     (∃ it, itemAt r.1 "fish_species" 0 = some it ∧
       getStrD it.data "name" "" = "Bass" ∧
       it.meta.version = 2 ∧
       ((aget r.1.versions
         ("fish_species:" ++ getStrD it.data "name" "")).getD []).length ≠
         it.meta.version) ∧
     ((aget r.1.versions "fish_species:lb").getD []).length = 1) := by
  decide

/-- C2, amended: `version` strictly increases by 1 per accepted merge, and
the ledger history under the item's `category:name` key keeps length equal
to the item's version **provided the merge's candidate carries the item's
exact stored name** — the version record is keyed by the candidate's name,
so an alias or case-variant match appends the record under a different key
(the counterexample).  Creation starts the correspondence at version 1 when
the ledger has no stale entry under the new key, and verification and
feedback append no record and change no version. -/
theorem c2_version_history_amended :
    (∀ (st : Store) (data : Obj) (data_type source : String)
        (confidence : Option ℚ) (verified : Bool) (changes : String)
        (items : List Item) (idx : Nat) (it : Item) (n : String),
      aget st.knowledge (get_type_key data_type) = some items →
      find_existing data items = some (idx, it) →
      aget data "name" = some (Val.vstr n) →
      getStrD it.data "name" "" = n →
      ((aget st.versions
        (get_type_key data_type ++ ":" ++ n)).getD []).length =
        it.meta.version →
      ∃ it2,
        itemAt (add_knowledge st data data_type source confidence verified
            changes).1 (get_type_key data_type) idx = some it2 ∧
        it2.meta.version = it.meta.version + 1 ∧
        getStrD it2.data "name" "" = n ∧
        ((aget (add_knowledge st data data_type source confidence verified
            changes).1.versions
          (get_type_key data_type ++ ":" ++ n)).getD []).length =
          it2.meta.version) ∧
    (∀ (st : Store) (data : Obj) (data_type source : String)
        (confidence : Option ℚ) (verified : Bool) (changes : String)
        (items : List Item) (n : String),
      aget (ensure_key st.knowledge (get_type_key data_type))
        (get_type_key data_type) = some items →
      find_existing data items = none →
      aget data "name" = some (Val.vstr n) →
      aget st.versions (get_type_key data_type ++ ":" ++ n) = none →
      ∃ it2,
        itemAt (add_knowledge st data data_type source confidence verified
            changes).1 (get_type_key data_type) items.length = some it2 ∧
        it2.meta.version = 1 ∧
        ((aget (add_knowledge st data data_type source confidence verified
            changes).1.versions
          (get_type_key data_type ++ ":" ++ n)).getD []).length = 1) ∧
    (∀ (st : Store) (dt nm vb : String),
      (verify_knowledge st dt nm vb).1.versions = st.versions) ∧
    (∀ (st : Store) (dt nm : String) (pos : Bool),
      (add_feedback st dt nm pos).1.versions = st.versions) ∧
    (∀ (st : Store) (dt nm vb k : String) (i : Nat) (it : Item),
      itemAt st k i = some it →
      ∃ it2, itemAt (verify_knowledge st dt nm vb).1 k i = some it2 ∧
        it2.meta.version = it.meta.version) ∧
    (∀ (st : Store) (op : FbOp) (k : String) (i : Nat) (it : Item),
      itemAt st k i = some it →
      ∃ it2, itemAt (applyFb st op) k i = some it2 ∧
        it2.meta.version = it.meta.version) := by
  refine ⟨?_, ?_, verify_versions, fb_versions, ?_, ?_⟩
  · intro st data data_type source confidence verified changes items idx it n
      hk hfe hname hstored hhist
    have hvk : pyStrName data = n := by
      rw [pyStrName, hname]
      rfl
    rw [add_knowledge_merge st data data_type source confidence verified
      changes items idx it hk hfe]
    have hidx : items[idx]? = some it :=
      find_existing_getElem data items idx it hfe
    have hlt : idx < items.length := (List.getElem?_eq_some_iff.mp hidx).1
    refine ⟨⟨merge_data it.data data,
      mergedMeta it source
        (confidence.getD ((aget DEFAULT_CONFIDENCE source).getD (q 7 10)))
        verified⟩, ?_, rfl, ?_, ?_⟩
    · rw [update_existing_itemAt_eq]
      simp only [hk, Option.getD_some, hidx]
      exact List.getElem?_set_self hlt
    · exact merged_name it.data data n hname hstored
    · rw [update_existing]
      simp only [hk, Option.getD_some, hidx, hvk, aget_aset_self,
        List.length_append, mergedMeta]
      simp [hhist]
  · intro st data data_type source confidence verified changes items n
      hens hfe hname hhist0
    have hvk : pyStrName data = n := by
      rw [pyStrName, hname]
      rfl
    rw [add_knowledge_branch_none st data data_type source confidence
      verified changes (by rw [hens]; simpa using hfe)]
    refine ⟨⟨stripMeta data,
      newMeta source
        (confidence.getD ((aget DEFAULT_CONFIDENCE source).getD (q 7 10)))
        verified⟩, ?_, rfl, ?_⟩
    · rw [add_new_itemAt_eq]
      simp only [hens, Option.getD_some]
      exact List.getElem?_concat_length _ _
    · rw [add_new]
      simp only [hvk, hhist0, aget_aset_self, Option.getD_none,
        List.nil_append, List.length_cons, List.length_nil]
      rfl
  · intro st dt nm vb k i it h
    obtain ⟨it2, h2, _, hv⟩ := verify_itemAt_version st dt nm vb k i it h
    exact ⟨it2, h2, hv⟩
  · intro st op k i it h
    obtain ⟨it2, h2, _, hv, _⟩ := applyFb_frame st op k i it h
    exact ⟨it2, h2, hv⟩

/-- C2, amended, witness: the exact-name-merge part applied to a store
holding one item `"Bass"` at version 1 whose ledger history has length 1. -/
theorem c2_version_history_amended_witness :
    aget
        (⟨[("fish_species", [⟨[("name", Val.vstr "Bass")], {}⟩])],
          [("fish_species:Bass",
            [⟨1, [("name", Val.vstr "Bass")], {}, "初始版本"⟩])]⟩ :
          Store).knowledge (get_type_key "fish") =
      some [⟨[("name", Val.vstr "Bass")], {}⟩] ∧
    find_existing [("name", Val.vstr "Bass")]
        [⟨[("name", Val.vstr "Bass")], {}⟩] =
      some (0, ⟨[("name", Val.vstr "Bass")], {}⟩) ∧
    (∃ it2,
      itemAt (add_knowledge
          (⟨[("fish_species", [⟨[("name", Val.vstr "Bass")], {}⟩])],
            [("fish_species:Bass",
              [⟨1, [("name", Val.vstr "Bass")], {}, "初始版本"⟩])]⟩ : Store)
          [("name", Val.vstr "Bass")] "fish" "manual" none false "").1
          (get_type_key "fish") 0 = some it2 ∧
      it2.meta.version =
        (⟨[("name", Val.vstr "Bass")], {}⟩ : Item).meta.version + 1 ∧
      getStrD it2.data "name" "" = "Bass" ∧
      ((aget (add_knowledge
          (⟨[("fish_species", [⟨[("name", Val.vstr "Bass")], {}⟩])],
            [("fish_species:Bass",
              [⟨1, [("name", Val.vstr "Bass")], {}, "初始版本"⟩])]⟩ : Store)
          [("name", Val.vstr "Bass")] "fish" "manual" none false "").1.versions
        (get_type_key "fish" ++ ":" ++ "Bass")).getD []).length =
        it2.meta.version) := by
  refine ⟨by decide, by decide, ?_⟩
  exact c2_version_history_amended.1
    ⟨[("fish_species", [⟨[("name", Val.vstr "Bass")], {}⟩])],
      [("fish_species:Bass",
        [⟨1, [("name", Val.vstr "Bass")], {}, "初始版本"⟩])]⟩
    [("name", Val.vstr "Bass")] "fish" "manual" none false ""
    [⟨[("name", Val.vstr "Bass")], {}⟩] 0
    ⟨[("name", Val.vstr "Bass")], {}⟩ "Bass"
    (by decide) (by decide) (by decide) (by decide) (by decide)

/-! ### Claim C5: field-by-field merge semantics -/

theorem pyGet_ne_null (d : Obj) (k : String) : pyGet d k ≠ some Val.vnull := by
  rw [pyGet]
  rcases aget d k with _ | v
  · simp
  · cases v <;> simp

/-- C5: the per-field behaviour of `_merge_data` on every key other than
`_meta`: a `null`/absent new value keeps the old value (in the Python sense
of `.get`, where `null` and absent coincide); two lists merge to their
union, deduplicated by string equality of the stringified elements; two
strings keep the old string unless the new one is different and strictly
longer; in every other case the new value overwrites the old. -/
theorem c5_merge_semantics (e nd : Obj) (k : String) (hk : k ≠ "_meta") :
    (pyGet nd k = none → k ∈ e.map Prod.fst ++ nd.map Prod.fst →
      pyGet (merge_data e nd) k = pyGet e k) ∧
    (∀ xs ys, pyGet e k = some (Val.vlist xs) →
      pyGet nd k = some (Val.vlist ys) →
      ∃ zs : List String,
        aget (merge_data e nd) k = some (Val.vlist (zs.map Val.vstr)) ∧
        zs.Nodup ∧
        (∀ s, s ∈ zs ↔ s ∈ xs.map valStr ∨ s ∈ ys.map valStr)) ∧
    (∀ s t, pyGet e k = some (Val.vstr s) → pyGet nd k = some (Val.vstr t) →
      aget (merge_data e nd) k =
        some (if s ≠ t ∧ s.length < t.length then Val.vstr t
          else Val.vstr s)) ∧
    (∀ nv, pyGet nd k = some nv →
      (∀ xs ys, ¬(pyGet e k = some (Val.vlist xs) ∧ nv = Val.vlist ys)) →
      (∀ s t, ¬(pyGet e k = some (Val.vstr s) ∧ nv = Val.vstr t)) →
      aget (merge_data e nd) k = some nv) := by
  refine ⟨?_, ?_, ?_, ?_⟩
  · intro hnone hmem
    rw [pyGet, aget_merge_data e nd k hk, if_pos hmem, hnone]
    rcases hpe : pyGet e k with _ | v
    · simp [mergeField]
    · have hvn : v ≠ Val.vnull := by
        intro hc
        rw [hc] at hpe
        exact pyGet_ne_null e k hpe
      cases v <;> simp_all [mergeField]
  · intro xs ys hxs hys
    have hmem : k ∈ e.map Prod.fst ++ nd.map Prod.fst :=
      List.mem_append_left _
        (aget_mem_keys e k _ (pyGet_eq_some e k _ hxs))
    rw [aget_merge_data e nd k hk, if_pos hmem, hxs, hys]
    refine ⟨((xs.map valStr) ++ (ys.map valStr)).dedup, rfl,
      List.nodup_dedup _, ?_⟩
    intro s
    rw [List.mem_dedup, List.mem_append]
  · intro s t hs ht
    have hmem : k ∈ e.map Prod.fst ++ nd.map Prod.fst :=
      List.mem_append_left _
        (aget_mem_keys e k _ (pyGet_eq_some e k _ hs))
    rw [aget_merge_data e nd k hk, if_pos hmem, hs, ht]
    rfl
  · intro nv hnv hnl hns
    have hmem : k ∈ e.map Prod.fst ++ nd.map Prod.fst :=
      List.mem_append_right _
        (aget_mem_keys nd k _ (pyGet_eq_some nd k _ hnv))
    rw [aget_merge_data e nd k hk, if_pos hmem, hnv]
    rcases hpe : pyGet e k with _ | ov
    · cases nv <;> simp [mergeField]
    · cases ov with
      | vnull => exact absurd hpe (pyGet_ne_null e k)
      | vbool b => cases nv <;> simp [mergeField]
      | vint m => cases nv <;> simp [mergeField]
      | vstr s =>
          cases nv with
          | vstr t => exact absurd ⟨hpe, rfl⟩ (hns s t)
          | vnull => simp [mergeField]
          | vbool b => simp [mergeField]
          | vint m => simp [mergeField]
          | vlist ys => simp [mergeField]
      | vlist xs =>
          cases nv with
          | vlist ys => exact absurd ⟨hpe, rfl⟩ (hnl xs ys)
          | vnull => simp [mergeField]
          | vbool b => simp [mergeField]
          | vint m => simp [mergeField]
          | vstr t => simp [mergeField]

/-- C5, witness: the list-union case on
`{"lures": ["a", 1]}` merged with `{"lures": ["b", "a"]}`. -/
theorem c5_merge_semantics_witness :
    ("lures" : String) ≠ "_meta" ∧
    ∃ zs : List String,
      aget (merge_data [("lures", Val.vlist [Val.vstr "a", Val.vint 1])]
          [("lures", Val.vlist [Val.vstr "b", Val.vstr "a"])]) "lures" =
        some (Val.vlist (zs.map Val.vstr)) ∧
      zs.Nodup ∧
      (∀ s, s ∈ zs ↔
        s ∈ ([Val.vstr "a", Val.vint 1] : List Val).map valStr ∨
        s ∈ ([Val.vstr "b", Val.vstr "a"] : List Val).map valStr) :=
  ⟨by decide,
    (c5_merge_semantics [("lures", Val.vlist [Val.vstr "a", Val.vint 1])]
      [("lures", Val.vlist [Val.vstr "b", Val.vstr "a"])] "lures"
      (by decide)).2.1
      [Val.vstr "a", Val.vint 1] [Val.vstr "b", Val.vstr "a"]
      (by decide) (by decide)⟩

/-! ### Claim C8: keyword scoring -/

theorem foldl_qadd_sum (l : List (String × Val)) (f : String × Val → ℚ)
    (a : ℚ) :
    l.foldl (fun sc kv => qadd sc (f kv)) a = a + (l.map f).sum := by
  induction l generalizing a with
  | nil => simp
  | cons kv rest ih =>
      rw [List.foldl_cons, ih, List.map_cons, List.sum_cons, qadd_eq]
      ring

/-- C8, counterexample: the field loop of `_keyword_search` does not skip
the `name` and `aliases` fields, so they are double counted.  An item named
exactly `"bass"` scores `0.8 + 0.3 = 1.1` for the query `"bass"`, not the
`0.8` the claim's formula gives; an item whose only match is the alias
`"bass"` scores `0.6 + 0.2 = 0.8`, not `0.6`. -/
theorem c8_keyword_score_counterexample :
    keyword_score "bass" ⟨[("name", Val.vstr "bass")], {}⟩ = q 11 10 ∧
    q 11 10 ≠ q 8 10 ∧
    keyword_score "bass"
      ⟨[("name", Val.vstr "x"), ("aliases", Val.vlist [Val.vstr "bass"])],
        {}⟩ = q 8 10 ∧
    q 8 10 ≠ q 6 10 := by
  decide

/-- C8, amended: the keyword score is the name bonus (0.8 when the query
and the name contain one another case-insensitively), plus the alias bonus
(0.6 for the first alias containing the query), plus 0.3 for **every**
field of the item dict holding a string that contains the query and 0.2 for
every field holding a list whose first matching element contains it — with
only keys starting with an underscore skipped, so the `name` and `aliases`
fields are counted again on top of their dedicated bonuses.  Every result
`_keyword_search` returns has a strictly positive score and carries the
`keyword` provenance tag. -/
theorem c8_keyword_score_amended :
    (∀ (query : String) (it : Item),
      keyword_score query it =
        (if substrB (strLower query) (lowerName it) ||
            substrB (lowerName it) (strLower query) then (8/10 : ℚ) else 0) +
        (if (aliasStrs it.data).any
            (fun a => substrB (strLower query) (strLower a)) then
          (6/10 : ℚ) else 0) +
        (it.data.map (fun kv => fieldScore (strLower query) kv)).sum) ∧
    (∀ (knowledge : List (String × List Item)) (query : String)
        (data_type : Option String) (top_k : Nat) (r : SR),
      r ∈ keyword_search knowledge query data_type top_k →
      r.score > 0 ∧ r.search_type = "keyword") := by
  constructor
  · intro query it
    simp only [keyword_score]
    rw [foldl_qadd_sum]
    have h8 : q 8 10 = (8/10 : ℚ) := by
      rw [q_eq]
      norm_num
    have h6 : q 6 10 = (6/10 : ℚ) := by
      rw [q_eq]
      norm_num
    by_cases h1 : (substrB (strLower query) (lowerName it) ||
        substrB (lowerName it) (strLower query)) = true <;>
      by_cases h2 : ((aliasStrs it.data).any
          (fun a => substrB (strLower query) (strLower a))) = true <;>
        simp only [lowerName] at h1 <;>
          simp [h1, h2, qadd_eq, h8, h6, lowerName]
  · intro knowledge query data_type top_k r hr
    simp only [keyword_search] at hr
    have hr2 := List.take_subset _ _ hr
    rw [(List.perm_insertionSort _ _).mem_iff] at hr2
    obtain ⟨l, hl, hrl⟩ := List.mem_flatten.mp hr2
    obtain ⟨tk, htk, hmap⟩ := List.mem_map.mp hl
    rw [← hmap] at hrl
    obtain ⟨it, hit, hsome⟩ := List.mem_filterMap.mp hrl
    by_cases hsc : keyword_score query it > 0
    · rw [if_pos hsc] at hsome
      cases hsome
      exact ⟨hsc, rfl⟩
    · rw [if_neg hsc] at hsome
      cases hsome

/-- C8, amended, witness: the decomposition at the query `"bass"` and the
item named `"bass"`, and the positivity of the single result returned on
the matching one-item store. -/
theorem c8_keyword_score_amended_witness :
    (keyword_score "bass" ⟨[("name", Val.vstr "bass")], {}⟩ =
      (if substrB (strLower "bass")
            (lowerName ⟨[("name", Val.vstr "bass")], {}⟩) ||
          substrB (lowerName ⟨[("name", Val.vstr "bass")], {}⟩)
            (strLower "bass") then (8/10 : ℚ) else 0) +
      (if (aliasStrs [("name", Val.vstr "bass")]).any
          (fun a => substrB (strLower "bass") (strLower a)) then
        (6/10 : ℚ) else 0) +
      ([("name", Val.vstr "bass")].map
        (fun kv => fieldScore (strLower "bass") kv)).sum) ∧
    ((⟨⟨[("name", Val.vstr "bass")], {}⟩, q 11 10, "fish_species",
        "keyword"⟩ : SR) ∈
      keyword_search [("fish_species", [⟨[("name", Val.vstr "bass")], {}⟩])]
        "bass" none 5 ∧
    (⟨⟨[("name", Val.vstr "bass")], {}⟩, q 11 10, "fish_species",
        "keyword"⟩ : SR).score > 0 ∧
    (⟨⟨[("name", Val.vstr "bass")], {}⟩, q 11 10, "fish_species",
        "keyword"⟩ : SR).search_type = "keyword") := by
  refine ⟨c8_keyword_score_amended.1 "bass" ⟨[("name", Val.vstr "bass")], {}⟩,
    by decide, ?_⟩
  exact c8_keyword_score_amended.2
    [("fish_species", [⟨[("name", Val.vstr "bass")], {}⟩])] "bass" none 5
    ⟨⟨[("name", Val.vstr "bass")], {}⟩, q 11 10, "fish_species", "keyword"⟩
    (by decide)

/-! ### Claim C7: hybrid fusion -/

theorem semFold_frame (w : ℚ) (k : String) :
    ∀ (sem : List SR) (c : List (String × SR)), k ∉ sem.map srKey →
      aget (sem.foldl (fun c r => aset c (srKey r)
        ⟨r.item, qmul r.score w, r.data_type, "semantic"⟩) c) k = aget c k := by
  intro sem
  induction sem with
  | nil => intro c _; rfl
  | cons r0 rest ih =>
      intro c hnk
      simp only [List.map_cons, List.mem_cons, not_or] at hnk
      rw [List.foldl_cons, ih _ hnk.2]
      exact aget_aset_ne c (srKey r0) _ k hnk.1

theorem semFold_mem (w : ℚ) (k : String) :
    ∀ (sem : List SR) (c : List (String × SR)) (r : SR),
      (sem.map srKey).Nodup → r ∈ sem → srKey r = k →
      aget (sem.foldl (fun c r => aset c (srKey r)
          ⟨r.item, qmul r.score w, r.data_type, "semantic"⟩) c) k =
        some ⟨r.item, qmul r.score w, r.data_type, "semantic"⟩ := by
  intro sem
  induction sem with
  | nil => intro c r _ hr _; cases hr
  | cons r0 rest ih =>
      intro c r hnd hr hk
      rw [List.map_cons, List.nodup_cons] at hnd
      rw [List.foldl_cons]
      rcases List.mem_cons.mp hr with heq | hr2
      · subst heq
        subst hk
        rw [semFold_frame w (srKey r) rest _ hnd.1]
        exact aget_aset_self c (srKey r) _
      · exact ih _ r hnd.2 hr2 hk

theorem kwFold_frame (kwW : ℚ) (k : String) :
    ∀ (kw : List SR) (c : List (String × SR)), k ∉ kw.map srKey →
      aget (kw.foldl (fun c r =>
        match aget c (srKey r) with
        | some ex =>
            aset c (srKey r)
              ⟨ex.item, qadd ex.score (qmul r.score kwW), ex.data_type,
                "hybrid"⟩
        | none =>
            aset c (srKey r) ⟨r.item, qmul r.score kwW, r.data_type,
              "keyword"⟩) c) k = aget c k := by
  intro kw
  induction kw with
  | nil => intro c _; rfl
  | cons r0 rest ih =>
      intro c hnk
      simp only [List.map_cons, List.mem_cons, not_or] at hnk
      rw [List.foldl_cons, ih _ hnk.2]
      cases hac : aget c (srKey r0) with
      | none =>
          simp only [hac]
          exact aget_aset_ne c (srKey r0) _ k hnk.1
      | some ex =>
          simp only [hac]
          exact aget_aset_ne c (srKey r0) _ k hnk.1

theorem kwFold_mem (kwW : ℚ) (k : String) :
    ∀ (kw : List SR) (c : List (String × SR)) (r : SR),
      (kw.map srKey).Nodup → r ∈ kw → srKey r = k →
      aget (kw.foldl (fun c r =>
        match aget c (srKey r) with
        | some ex =>
            aset c (srKey r)
              ⟨ex.item, qadd ex.score (qmul r.score kwW), ex.data_type,
                "hybrid"⟩
        | none =>
            aset c (srKey r) ⟨r.item, qmul r.score kwW, r.data_type,
              "keyword"⟩) c) k =
        some (match aget c k with
          | some ex =>
              ⟨ex.item, qadd ex.score (qmul r.score kwW), ex.data_type,
                "hybrid"⟩
          | none =>
              ⟨r.item, qmul r.score kwW, r.data_type, "keyword"⟩) := by
  intro kw
  induction kw with
  | nil => intro c r _ hr _; cases hr
  | cons r0 rest ih =>
      intro c r hnd hr hk
      rw [List.map_cons, List.nodup_cons] at hnd
      rw [List.foldl_cons]
      rcases List.mem_cons.mp hr with heq | hr2
      · subst heq
        subst hk
        cases hac : aget c (srKey r) with
        | none =>
            simp only [hac]
            rw [kwFold_frame kwW (srKey r) rest _ hnd.1]
            exact aget_aset_self c (srKey r) _
        | some ex =>
            simp only [hac]
            rw [kwFold_frame kwW (srKey r) rest _ hnd.1]
            exact aget_aset_self c (srKey r) _
      · have hne : srKey r0 ≠ k := by
          intro hc
          apply hnd.1
          rw [hc, ← hk]
          exact List.mem_map.mpr ⟨r, hr2, rfl⟩
        have hstep : aget (match aget c (srKey r0) with
            | some ex =>
                aset c (srKey r0)
                  ⟨ex.item, qadd ex.score (qmul r0.score kwW), ex.data_type,
                    "hybrid"⟩
            | none =>
                aset c (srKey r0)
                  ⟨r0.item, qmul r0.score kwW, r0.data_type, "keyword"⟩) k =
            aget c k := by
          cases hac : aget c (srKey r0) with
          | none =>
              simp only [hac]
              exact aget_aset_ne c (srKey r0) _ k (Ne.symm hne)
          | some ex =>
              simp only [hac]
              exact aget_aset_ne c (srKey r0) _ k (Ne.symm hne)
        rw [ih _ r hnd.2 hr2 hk, hstep]

/-- C7: in the `combined` map of `hybrid_search`, an item present in both
result lists gets `semanticScore*w + keywordScore*(1-w)` with provenance
`hybrid`; an item present only in one list gets its single-source score
scaled by its own weight, with provenance `semantic` or `keyword`; the
fused output is sorted descending by score and truncated to `top_k`; and
the spec's concrete example (semantic 0.9, keyword 0.8, weight 0.7) fuses
to exactly 0.87. -/
theorem c7_hybrid_fusion :
    (∀ (sem kw : List SR) (w : ℚ) (k : String) (rs rk : SR),
      (sem.map srKey).Nodup → (kw.map srKey).Nodup →
      rs ∈ sem → srKey rs = k → rk ∈ kw → srKey rk = k →
      aget (combinedMap sem kw w) k =
        some ⟨rs.item, rs.score * w + rk.score * (1 - w), rs.data_type,
          "hybrid"⟩) ∧
    (∀ (sem kw : List SR) (w : ℚ) (k : String) (rs : SR),
      (sem.map srKey).Nodup → rs ∈ sem → srKey rs = k →
      k ∉ kw.map srKey →
      aget (combinedMap sem kw w) k =
        some ⟨rs.item, rs.score * w, rs.data_type, "semantic"⟩) ∧
    (∀ (sem kw : List SR) (w : ℚ) (k : String) (rk : SR),
      (kw.map srKey).Nodup → rk ∈ kw → srKey rk = k →
      k ∉ sem.map srKey →
      aget (combinedMap sem kw w) k =
        some ⟨rk.item, rk.score * (1 - w), rk.data_type, "keyword"⟩) ∧
    (∀ (sem kw : List SR) (w : ℚ) (top_k : Nat),
      (hybrid_combine sem kw w top_k).length ≤ top_k ∧
      (hybrid_combine sem kw w top_k).Pairwise
        (fun a b : SR => b.score ≤ a.score)) ∧
    (hybrid_combine
        [⟨⟨[("name", Val.vstr "Bass")], {}⟩, q 9 10, "fish_species",
          "semantic"⟩]
        [⟨⟨[("name", Val.vstr "Bass")], {}⟩, q 8 10, "fish_species",
          "keyword"⟩] (q 7 10) 5 =
      [⟨⟨[("name", Val.vstr "Bass")], {}⟩, q 87 100, "fish_species",
        "hybrid"⟩] ∧
      q 87 100 = (87/100 : ℚ)) := by
  refine ⟨?_, ?_, ?_, ?_, by decide, ?_⟩
  · intro sem kw w k rs rk hnds hndk hrs hks hrk hkk
    simp only [combinedMap]
    rw [kwFold_mem (qsub 1 w) k kw _ rk hndk hrk hkk]
    rw [semFold_mem w k sem [] rs hnds hrs hks]
    simp only [qadd_eq, qmul_eq, qsub_eq]
  · intro sem kw w k rs hnds hrs hks hnk
    simp only [combinedMap]
    rw [kwFold_frame (qsub 1 w) k kw _ hnk]
    rw [semFold_mem w k sem [] rs hnds hrs hks]
    simp only [qmul_eq]
  · intro sem kw w k rk hndk hrk hkk hns
    simp only [combinedMap]
    rw [kwFold_mem (qsub 1 w) k kw _ rk hndk hrk hkk]
    rw [semFold_frame w k sem [] hns]
    simp only [aget, qmul_eq, qsub_eq]
  · intro sem kw w top_k
    constructor
    · rw [hybrid_combine]
      exact List.length_take_le _ _
    · rw [hybrid_combine]
      haveI : IsTotal SR (fun a b : SR => b.score ≤ a.score) :=
        ⟨fun a b => le_total b.score a.score⟩
      haveI : IsTrans SR (fun a b : SR => b.score ≤ a.score) :=
        ⟨fun a b c hab hbc => le_trans hbc hab⟩
      exact (List.sorted_insertionSort _ _).sublist (List.take_sublist _ _)
  · rw [q_eq]
    norm_num

/-- C7, witness: the hybrid part applied to the spec's concrete example:
one semantic result at 0.9 and one keyword result at 0.8 under the same
key, with weight 0.7. -/
theorem c7_hybrid_fusion_witness :
    (([⟨⟨[("name", Val.vstr "Bass")], {}⟩, q 9 10, "fish_species",
        "semantic"⟩] : List SR).map srKey).Nodup ∧
    aget (combinedMap
        [⟨⟨[("name", Val.vstr "Bass")], {}⟩, q 9 10, "fish_species",
          "semantic"⟩]
        [⟨⟨[("name", Val.vstr "Bass")], {}⟩, q 8 10, "fish_species",
          "keyword"⟩] (q 7 10)) "fish_species:Bass" =
      some ⟨(⟨[("name", Val.vstr "Bass")], {}⟩ : Item),
        (⟨⟨[("name", Val.vstr "Bass")], {}⟩, q 9 10, "fish_species",
          "semantic"⟩ : SR).score * q 7 10 +
        (⟨⟨[("name", Val.vstr "Bass")], {}⟩, q 8 10, "fish_species",
          "keyword"⟩ : SR).score * (1 - q 7 10), "fish_species", "hybrid"⟩ := by
  refine ⟨by decide, ?_⟩
  exact c7_hybrid_fusion.1
    [⟨⟨[("name", Val.vstr "Bass")], {}⟩, q 9 10, "fish_species", "semantic"⟩]
    [⟨⟨[("name", Val.vstr "Bass")], {}⟩, q 8 10, "fish_species", "keyword"⟩]
    (q 7 10) "fish_species:Bass"
    ⟨⟨[("name", Val.vstr "Bass")], {}⟩, q 9 10, "fish_species", "semantic"⟩
    ⟨⟨[("name", Val.vstr "Bass")], {}⟩, q 8 10, "fish_species", "keyword"⟩
    (by decide) (by decide) (by decide) (by decide) (by decide) (by decide)

/-! ### Claim C4: validation on add -/

/-- C4, counterexample: `add_knowledge` does not validate through the schema
registry.  A record with no `name` field under the unknown category
`"mystery"`, and a record with an empty `name` under the known category
`"fish"`, are both rejected by `validate_data` and yet both accepted by
`add_knowledge`, which mutates the store. -/
theorem c4_validation_counterexample :
    validate_data [("habits", Val.vstr "deep")] "mystery" = false ∧
    (add_knowledge ⟨[], []⟩ [("habits", Val.vstr "deep")] "mystery" "manual"
        none false "").2 = true ∧
    (add_knowledge ⟨[], []⟩ [("habits", Val.vstr "deep")] "mystery" "manual"
        none false "").1 ≠ (⟨[], []⟩ : Store) ∧
    validate_data [("name", Val.vstr "")] "fish" = false ∧
    (add_knowledge ⟨[], []⟩ [("name", Val.vstr "")] "fish" "manual"
        none false "").2 = true ∧
    (add_knowledge ⟨[], []⟩ [("name", Val.vstr "")] "fish" "manual"
        none false "").1 ≠ (⟨[], []⟩ : Store) := by
  decide

/-- C4, amended: `add_knowledge` performs no schema validation at all (the
registry's `validate_data` is called only by the separate `KnowledgeMerger`):
every call is accepted, an unknown category key is created on demand, and
records with a missing or empty `name` still mutate the store. -/
theorem c4_no_validation_amended (st : Store) (data : Obj)
    (data_type source : String) (confidence : Option ℚ) (verified : Bool)
    (changes : String) :
    (add_knowledge st data data_type source confidence verified changes).2 =
      true ∧
    hasKey
      (add_knowledge st data data_type source confidence verified
        changes).1.knowledge (get_type_key data_type) = true := by
  rw [add_knowledge]
  cases h : find_existing data
      ((aget (ensure_key st.knowledge (get_type_key data_type))
        (get_type_key data_type)).getD []) with
  | none =>
      simp only [h, add_new, hasKey]
      exact ⟨trivial, by simp [aget_aset_self]⟩
  | some p =>
      cases p with
      | mk idx it =>
          simp only [h, update_existing, hasKey]
          exact ⟨trivial, by simp [aget_aset_self]⟩

/-- The status transition of `add_feedback`, rephrased from the source's
condition order and its reducible rational operations to the spec's. -/
theorem feedback_status_formula (p n : Nat) (old : String) :
    (if qdiv (p : ℚ) ((p + n : Nat) : ℚ) < q 3 10 ∧ p + n ≥ 5 then "deprecated"
     else if qdiv (p : ℚ) ((p + n : Nat) : ℚ) < q 1 2 ∧ p + n ≥ 3 then
       "pending"
     else old) =
    (if p + n ≥ 5 ∧ (p : ℚ) / ((p + n : Nat) : ℚ) < 3/10 then "deprecated"
     else if p + n ≥ 3 ∧ (p : ℚ) / ((p + n : Nat) : ℚ) < 1/2 then "pending"
     else old) := by
  rw [qdiv_eq, q_eq, q_eq]
  have c3 : ((3 : Int) : ℚ) / ((10 : Nat) : ℚ) = 3/10 := by norm_num
  have c2 : ((1 : Int) : ℚ) / ((2 : Nat) : ℚ) = 1/2 := by norm_num
  rw [c3, c2]
  split_ifs <;> first | rfl | tauto

/-! ### Claim C6: feedback status rule -/

/-- C6: when `add_feedback` finds its target item, it increments the
counters and then the status becomes `deprecated` exactly when the total is
at least 5 and the positive rate is below 0.3, else `pending` exactly when
the total is at least 3 and the rate is below 0.5, and otherwise stays
unchanged; and the concrete scenario of one positive followed by four
negative feedbacks on a fresh `active` item ends `deprecated`. -/
theorem c6_feedback_status (st : Store) (data_type nm : String)
    (is_positive : Bool) (items : List Item) (idx : Nat) (it : Item)
    (hk : aget st.knowledge (get_type_key data_type) = some items)
    (hf : findName items nm = some idx)
    (hi : items[idx]? = some it) :
    (∃ m1 : Meta,
      add_feedback st data_type nm is_positive =
        (⟨aset st.knowledge (get_type_key data_type)
            (items.set idx ⟨it.data, m1⟩), st.versions⟩, true) ∧
      m1.feedback_count = it.meta.feedback_count + 1 ∧
      m1.positive_feedback =
        it.meta.positive_feedback + (if is_positive then 1 else 0) ∧
      m1.negative_feedback =
        it.meta.negative_feedback + (if is_positive then 0 else 1) ∧
      m1.status =
        (if m1.positive_feedback + m1.negative_feedback ≥ 5 ∧
            (m1.positive_feedback : ℚ) /
              ((m1.positive_feedback + m1.negative_feedback : Nat) : ℚ) <
              3/10 then "deprecated"
         else if m1.positive_feedback + m1.negative_feedback ≥ 3 ∧
            (m1.positive_feedback : ℚ) /
              ((m1.positive_feedback + m1.negative_feedback : Nat) : ℚ) <
              1/2 then "pending"
         else it.meta.status)) ∧
    (add_feedback
      ((add_feedback
        ((add_feedback
          ((add_feedback
            ((add_feedback
              (⟨[("fish_species", [⟨[("name", Val.vstr "Bass")], {}⟩])], []⟩ :
                Store)
              "fish" "Bass" true).1)
            "fish" "Bass" false).1)
          "fish" "Bass" false).1)
        "fish" "Bass" false).1)
      "fish" "Bass" false).1.knowledge =
      [("fish_species",
        [⟨[("name", Val.vstr "Bass")],
          {feedback_count := 5, positive_feedback := 1, negative_feedback := 4,
            status := "deprecated"}⟩])] := by
  constructor
  · rw [add_feedback]
    simp only [hk, hf, hi, Option.getD_some]
    refine ⟨_, rfl, rfl, by cases is_positive <;> simp,
      by cases is_positive <;> simp, ?_⟩
    have hptot :
        ((if is_positive = true then it.meta.positive_feedback + 1
            else it.meta.positive_feedback) +
          (if is_positive = true then it.meta.negative_feedback
            else it.meta.negative_feedback + 1)) > 0 := by
      cases is_positive <;> simp
    rw [if_pos hptot]
    exact feedback_status_formula _ _ it.meta.status
  · decide

/-- C6, witness: the theorem applied to the one-item store at the concrete
point where the fifth feedback (the fourth negative) arrives. -/
theorem c6_feedback_status_witness :
    aget
        (⟨[("fish_species",
            [⟨[("name", Val.vstr "Bass")],
              {feedback_count := 4, positive_feedback := 1,
                negative_feedback := 3, status := "pending"}⟩])], []⟩ :
          Store).knowledge (get_type_key "fish") =
      some [⟨[("name", Val.vstr "Bass")],
        {feedback_count := 4, positive_feedback := 1, negative_feedback := 3,
          status := "pending"}⟩] ∧
    findName
        [⟨[("name", Val.vstr "Bass")],
          {feedback_count := 4, positive_feedback := 1, negative_feedback := 3,
            status := "pending"}⟩] "Bass" = some 0 ∧
    (∃ m1 : Meta,
      add_feedback
          (⟨[("fish_species",
              [⟨[("name", Val.vstr "Bass")],
                {feedback_count := 4, positive_feedback := 1,
                  negative_feedback := 3, status := "pending"}⟩])], []⟩ :
            Store) "fish" "Bass" false =
        (⟨aset
            (⟨[("fish_species",
                [⟨[("name", Val.vstr "Bass")],
                  {feedback_count := 4, positive_feedback := 1,
                    negative_feedback := 3, status := "pending"}⟩])], []⟩ :
              Store).knowledge (get_type_key "fish")
            ([⟨[("name", Val.vstr "Bass")],
              {feedback_count := 4, positive_feedback := 1,
                negative_feedback := 3, status := "pending"}⟩].set 0
              ⟨[("name", Val.vstr "Bass")], m1⟩), []⟩, true) ∧
      m1.feedback_count = 5 ∧
      m1.positive_feedback = 1 + (if false then 1 else 0) ∧
      m1.negative_feedback = 3 + (if false then 0 else 1) ∧
      m1.status =
        (if m1.positive_feedback + m1.negative_feedback ≥ 5 ∧
            (m1.positive_feedback : ℚ) /
              ((m1.positive_feedback + m1.negative_feedback : Nat) : ℚ) <
              3/10 then "deprecated"
         else if m1.positive_feedback + m1.negative_feedback ≥ 3 ∧
            (m1.positive_feedback : ℚ) /
              ((m1.positive_feedback + m1.negative_feedback : Nat) : ℚ) <
              1/2 then "pending"
         else "pending")) := by
  have h := c6_feedback_status
    ⟨[("fish_species",
        [⟨[("name", Val.vstr "Bass")],
          {feedback_count := 4, positive_feedback := 1, negative_feedback := 3,
            status := "pending"}⟩])], []⟩
    "fish" "Bass" false
    [⟨[("name", Val.vstr "Bass")],
      {feedback_count := 4, positive_feedback := 1, negative_feedback := 3,
        status := "pending"}⟩]
    0
    ⟨[("name", Val.vstr "Bass")],
      {feedback_count := 4, positive_feedback := 1, negative_feedback := 3,
        status := "pending"}⟩
    (by decide) (by decide) (by decide)
  exact ⟨by decide, by decide, h.1⟩

/-! ### Claim C10: exact-match feedback/verify versus case-insensitive merge -/

/-- C10: `add_feedback` and `verify_knowledge` locate their target by exact,
case-sensitive string equality on the stored name (never via aliases): when
an item of the category matches the queried name case-insensitively or by
alias, but no item's stored name equals it exactly, both report not-found
and leave the store unchanged, while `_find_existing` — the duplicate
resolution of `add_knowledge` — does resolve that name to an item, so an
`add_knowledge` call with it merges instead of creating a new item. -/
theorem c10_exact_match_vs_merge (st : Store) (data_type nm vb : String)
    (pos : Bool) (items : List Item) (it : Item)
    (hk : aget st.knowledge (get_type_key data_type) = some items)
    (hmem : it ∈ items)
    (hmatch : strLower (getStrD it.data "name" "") = strLower nm ∨
      ∃ a ∈ aliasStrs it.data, strLower a = strLower nm)
    (hexact : ∀ it2 ∈ items, aget it2.data "name" ≠ some (Val.vstr nm)) :
    add_feedback st data_type nm pos = (st, false) ∧
    verify_knowledge st data_type nm vb = (st, false) ∧
    ∃ p, find_existing [("name", Val.vstr nm)] items = some p := by
  have hfn : findName items nm = none := findName_eq_none items nm hexact
  refine ⟨?_, ?_, ?_⟩
  · rw [add_feedback]
    simp only [hk, hfn]
  · rw [verify_knowledge]
    simp only [hk, hfn]
  · cases hfe : find_existing [("name", Val.vstr nm)] items with
    | some p => exact ⟨p, rfl⟩
    | none =>
        exfalso
        have := (find_existing_from_none (strLower nm) items).mp
          (by simpa [find_existing, getStrD, aget] using hfe)
        rcases hmatch with hm | ⟨a, ha, hm⟩
        · exact (this it hmem).1 hm
        · exact (this it hmem).2 a ha hm

/-- C10, witness: a store holding one item named `"Bass"` with alias
`"LB"`; the query `"bass"` differs from the stored name only in case, is
found by `_find_existing`, and is rejected by feedback and verification. -/
theorem c10_exact_match_vs_merge_witness :
    aget
        (⟨[("fish_species", [⟨[("name", Val.vstr "Bass"),
            ("aliases", Val.vlist [Val.vstr "LB"])], {}⟩])], []⟩ :
          Store).knowledge (get_type_key "fish") =
      some [⟨[("name", Val.vstr "Bass"),
        ("aliases", Val.vlist [Val.vstr "LB"])], {}⟩] ∧
    (add_feedback
        (⟨[("fish_species", [⟨[("name", Val.vstr "Bass"),
            ("aliases", Val.vlist [Val.vstr "LB"])], {}⟩])], []⟩ : Store)
        "fish" "bass" true =
      ((⟨[("fish_species", [⟨[("name", Val.vstr "Bass"),
          ("aliases", Val.vlist [Val.vstr "LB"])], {}⟩])], []⟩ : Store),
        false) ∧
    verify_knowledge
        (⟨[("fish_species", [⟨[("name", Val.vstr "Bass"),
            ("aliases", Val.vlist [Val.vstr "LB"])], {}⟩])], []⟩ : Store)
        "fish" "bass" "reviewer" =
      ((⟨[("fish_species", [⟨[("name", Val.vstr "Bass"),
          ("aliases", Val.vlist [Val.vstr "LB"])], {}⟩])], []⟩ : Store),
        false) ∧
    ∃ p, find_existing [("name", Val.vstr "bass")]
        [⟨[("name", Val.vstr "Bass"),
          ("aliases", Val.vlist [Val.vstr "LB"])], {}⟩] = some p) := by
  refine ⟨by decide, ?_⟩
  exact c10_exact_match_vs_merge
    ⟨[("fish_species", [⟨[("name", Val.vstr "Bass"),
        ("aliases", Val.vlist [Val.vstr "LB"])], {}⟩])], []⟩
    "fish" "bass" "reviewer" true
    [⟨[("name", Val.vstr "Bass"),
      ("aliases", Val.vlist [Val.vstr "LB"])], {}⟩]
    ⟨[("name", Val.vstr "Bass"),
      ("aliases", Val.vlist [Val.vstr "LB"])], {}⟩
    (by decide) (by decide) (by decide) (by decide)

end LureMaster
